import Mathlib

/-! # ssestream: Server-Sent Events frame decoder and typed stream

A shallow embedding of `packages/ssestream/stream.go`.

* Go strings are modelled as lists of Unicode code points (`GoString`).
* The `bufio.Scanner` held by a `Decoder` is modelled by the lines of the
  source it has not scanned yet together with the sticky error it reports once
  they are used up (`io.EOF` or nothing for a clean end of input). It keeps the
  default buffer: a line of `MaxScanTokenSize` bytes or more ends the scan with
  `ErrTooLong`.
* `json.Unmarshal` into the type parameter `T` is a parameter
  `unmarshal : GoString → Except GoError T` of `Stream.Next`.
* Pointers that may be nil are `Option`s; the mutable decoder behind the
  pointer is threaded through as explicit state.
-/

namespace ssestream

/-! ## Strings -/

/-- A Go string, as the sequence of its code points (the text is taken to be
valid UTF-8, on which the byte-level functions of package `strings` used here
agree with their code-point-level models below). -/
abbrev GoString := List Char

/-- The predicate `unicode.IsSpace`: the Latin-1 space characters, and the
`White_Space` range table above Latin-1. -/
def isSpace (r : Char) : Bool :=
  let c := r.toNat
  if c ≤ 0xFF then
    c == 0x09 || c == 0x0A || c == 0x0B || c == 0x0C || c == 0x0D || c == 0x20
      || c == 0x85 || c == 0xA0
  else
    c == 0x1680 || (0x2000 ≤ c && c ≤ 0x200A) || c == 0x2028 || c == 0x2029
      || c == 0x202F || c == 0x205F || c == 0x3000

/-- The function `strings.TrimSpace`: all leading and trailing white space removed. -/
def TrimSpace (s : GoString) : GoString :=
  (s.dropWhile isSpace).rdropWhile isSpace

/-- The function `strings.HasPrefix`. -/
def HasPrefix (s pre : GoString) : Bool :=
  decide (s.take pre.length = pre)

/-- The function `strings.Index`: position of the first instance of `substr` in `s`,
`none` standing for the result `-1`. -/
def Index : GoString → GoString → Option Nat
  | [], substr => if substr = [] then some 0 else none
  | c :: s, substr =>
    if HasPrefix (c :: s) substr then some 0
    else (Index s substr).map (· + 1)

/-- The length of a Go string in bytes: the length of its UTF-8 encoding. -/
def byteLen : GoString → Nat
  | [] => 0
  | c :: s => c.utf8Size + byteLen s

/-- The constant `bufio.MaxScanTokenSize`: the size of the buffer of a scanner
made by `bufio.NewScanner`. -/
def MaxScanTokenSize : Nat := 64 * 1024

/-- The function `dropCR` of `bufio.ScanLines`: a trailing carriage return is
not part of the token. -/
def dropCR (data : GoString) : GoString :=
  if data.getLast? = some '\r' then data.dropLast else data

/-! ## Errors -/

/-- Go `error` values that occur in the package. -/
inductive GoError where
  /-- The sentinel `io.EOF`. -/
  | EOF
  /-- The value of `fmt.Errorf(msg)`, and any other error with message `msg`
  that is not the sentinel (read failures, decoding failures). -/
  | errorf (msg : String)
  /-- The value of `fmt.Errorf(msg ++ ": %w", inner)`. -/
  | wrapf (msg : String) (inner : GoError)
  deriving DecidableEq, Repr

/-- The method `Error()`: the message of an error. -/
def GoError.Error : GoError → String
  | .EOF => "EOF"
  | .errorf msg => msg
  | .wrapf msg inner => msg ++ ": " ++ inner.Error

/-- The method `Unwrap()`: the error wrapped with `%w`, if any. -/
def GoError.Unwrap : GoError → Option GoError
  | .wrapf _ inner => some inner
  | _ => none

/-- The error `bufio.ErrTooLong`. -/
def ErrTooLong : GoError :=
  GoError.errorf "bufio.Scanner: token too long"

/-! ## Data model -/

set_option linter.dupNamespace false in
/-- The struct `Event`: a single Server-Sent Event. -/
structure Event where
  ID : GoString := []
  Event : GoString := []
  Data : GoString := []
  Retry : Int := 0
  deriving DecidableEq, Repr

/-- A `bufio.Scanner` as `bufio.NewScanner` makes it, with the line splitter
and the buffer of `MaxScanTokenSize` bytes: the lines of the source it has not
scanned yet, each without its newline, and its sticky error: the error of the
underlying reader that ends the input (`none` or `io.EOF` for a clean end), or
`ErrTooLong` once the scan has stopped at a line that does not fit the buffer. -/
structure Scanner where
  lines : List GoString
  err : Option GoError := none
  deriving DecidableEq, Repr

/-- The method `Scanner.Err`: the first non-EOF error met by the scanner. -/
def Scanner.Err (s : Scanner) : Option GoError :=
  if s.err = some GoError.EOF then none else s.err

/-- The struct `http.Response`, reduced to its body: the lines a scanner reads
from it and the read error that ends it. -/
structure Response where
  Body : Scanner
  deriving DecidableEq, Repr

/-- The struct `Decoder`. -/
structure Decoder where
  response : Option Response := none
  scanner : Option Scanner
  deriving DecidableEq, Repr

/-- The struct `Stream[T]`. -/
structure Stream (T : Type) where
  decoder : Option Decoder
  err : Option GoError
  current : Option T := none
  hasNext : Bool

/-- The constructor `NewStream`. -/
def NewStream {T : Type} (decoder : Option Decoder) (err : Option GoError) : Stream T :=
  { decoder := decoder, err := err, hasNext := true }

/-- The constructor `NewDecoder`. -/
def NewDecoder (response : Option Response) : Option Decoder :=
  match response with
  | none => none
  | some r => some { response := some r, scanner := some r.Body }

/-! ## Frame decoder -/

/-- The `for d.scanner.Scan()` loop of `readEvent`, run on the lines the scanner
still holds, with its sticky error `err` and the event accumulated so far: the
event returned from inside the loop, if any, and the scanner afterwards.
`Scan` stops at a line of `MaxScanTokenSize` bytes or more, which does not fit
the buffer together with its newline: it returns false and the error becomes
`ErrTooLong`. From then on no call of `readEvent` returns an event: `Scan` hands
out at most the content of the full buffer as one more token and then returns
false for good, so every later `readEvent` leaves the loop without an event and
returns `ErrTooLong`; the scanner is therefore left without lines, holding that
error. Otherwise `Text` is the line without a trailing carriage return. -/
def scanLoop (event : Event) (err : Option GoError) :
    List GoString → Option Event × Scanner
  | [] => (none, { lines := [], err := err })
  | text :: rest =>
    if MaxScanTokenSize ≤ byteLen text then
      (none, { lines := [], err := some ErrTooLong })
    else
      let line := TrimSpace (dropCR text)
      if line = [] then
        if event.Data ≠ [] ∨ event.Event ≠ [] ∨ event.ID ≠ [] then
          (some event, { lines := rest, err := err })
        else
          scanLoop event err rest
      else if HasPrefix line [':'] then
        scanLoop event err rest
      else
        match Index line [':'] with
        | some colonIndex =>
          let field := TrimSpace (line.take colonIndex)
          let value := TrimSpace (line.drop (colonIndex + 1))
          if field = ['d', 'a', 't', 'a'] then
            let data := if event.Data ≠ [] then event.Data ++ ['\n'] else event.Data
            scanLoop { event with Data := data ++ value } err rest
          else if field = ['e', 'v', 'e', 'n', 't'] then
            scanLoop { event with Event := value } err rest
          else if field = ['i', 'd'] then
            scanLoop { event with ID := value } err rest
          else if field = ['r', 'e', 't', 'r', 'y'] then
            scanLoop event err rest
          else
            scanLoop event err rest
        | none => scanLoop event err rest

/-- The method `Decoder.readEvent`: the returned pair `(*Event, error)` and the
decoder afterwards. -/
def Decoder.readEvent (d : Decoder) : (Option Event × Option GoError) × Decoder :=
  match d.scanner with
  | none => ((none, some (GoError.errorf "scanner is nil")), d)
  | some sc =>
    match scanLoop {} sc.err sc.lines with
    | (some event, sc') =>
      ((some event, none), { d with scanner := some sc' })
    | (none, sc') =>
      match sc'.Err with
      | some err => ((none, some err), { d with scanner := some sc' })
      | none => ((none, some GoError.EOF), { d with scanner := some sc' })

/-- Number of lines the decoder's scanner still holds. -/
def Decoder.pending (d : Decoder) : Nat :=
  match d.scanner with
  | none => 0
  | some sc => sc.lines.length

/-- Calling `readEvent` repeatedly until it returns no event, at most `fuel`
times: the events returned, in order, and the error of the last call.
`none` when `fuel` calls were not enough. -/
def readEventsFuel : Nat → Decoder → Option (List Event × Option GoError)
  | 0, _ => none
  | fuel + 1, d =>
    match d.readEvent with
    | ((some event, none), d') =>
      (readEventsFuel fuel d').map (fun r => (event :: r.1, r.2))
    | ((_, err), _) => some ([], err)

/-- Calling `readEvent` repeatedly until it returns no event. Every call that
returns an event consumes a line, so one call more than there are lines is enough. -/
def readEvents (d : Decoder) : Option (List Event × Option GoError) :=
  readEventsFuel (d.pending + 1) d

/-- A decoder over a source that holds the given lines and ends cleanly. -/
def decoderOf (lines : List GoString) : Decoder :=
  { scanner := some { lines := lines } }

/-! ## Typed stream -/

/-- The method `Stream.Next`, with `json.Unmarshal` into `T` as `unmarshal`:
the returned boolean and the stream afterwards. -/
def Stream.Next {T : Type} (unmarshal : GoString → Except GoError T) (s : Stream T) :
    Bool × Stream T :=
  if s.err ≠ none then
    (false, s)
  else
    match s.decoder with
    | none => (false, { s with err := some (GoError.errorf "decoder is nil") })
    | some d =>
      match d.readEvent with
      | ((_, some err), d') =>
        if err = GoError.EOF then
          (false, { s with decoder := some d', hasNext := false })
        else
          (false, { s with decoder := some d', err := some err })
      | ((none, none), d') =>
        (false, { s with decoder := some d', hasNext := false })
      | ((some event, none), d') =>
        match unmarshal event.Data with
        | .error err =>
          (false, { s with decoder := some d',
                           err := some (GoError.wrapf "failed to unmarshal event data" err) })
        | .ok result =>
          (true, { s with decoder := some d', current := some result })

/-- The method `Stream.Current`, with `zero` the zero value of `T`. -/
def Stream.Current {T : Type} (zero : T) (s : Stream T) : T :=
  match s.current with
  | none => zero
  | some v => v

/-- The method `Stream.Err`. -/
def Stream.Err {T : Type} (s : Stream T) : Option GoError :=
  s.err

/-! ## The framing grammar, in the words of the specification -/

/-- A line is blank when nothing is left of it after trimming: the frame terminator. -/
def isBlank (text : GoString) : Bool :=
  decide (TrimSpace text = [])

/-- An event has content when at least one of `ID`, `Event`, `Data` is non-empty. -/
def hasContent (event : Event) : Bool :=
  decide (event.Data ≠ [] ∨ event.Event ≠ [] ∨ event.ID ≠ [])

/-- Effect of one non-blank line on the accumulating frame: a comment is
ignored; any other line is split on its first colon into a trimmed field name
and a trimmed value; `data` appends (after a newline separator when the data
already has content), `event` and `id` replace, `retry`, other names and lines
without a colon are ignored. -/
def accumulate (event : Event) (text : GoString) : Event :=
  let line := TrimSpace text
  if HasPrefix line [':'] then event
  else
    match Index line [':'] with
    | none => event
    | some i =>
      let name := TrimSpace (line.take i)
      let value := TrimSpace (line.drop (i + 1))
      if name = ['d', 'a', 't', 'a'] then
        { event with Data := if event.Data = [] then value else event.Data ++ ['\n'] ++ value }
      else if name = ['e', 'v', 'e', 'n', 't'] then { event with Event := value }
      else if name = ['i', 'd'] then { event with ID := value }
      else event

/-- The blank-line-terminated frames of an input, in order, each without its
terminator. Lines after the last blank line belong to no frame. -/
def frames : List GoString → List (List GoString)
  | [] => []
  | text :: rest =>
    if isBlank text then [] :: frames rest
    else
      match frames rest with
      | [] => []
      | frame :: later => (text :: frame) :: later

/-- The event accumulated from the lines of one frame, starting from nothing. -/
def frameEvent (frame : List GoString) : Event :=
  frame.foldl accumulate {}

/-- The events of an input read with `event` already accumulated: the frames in
order, those without content left out. -/
def eventsFrom (event : Event) : List GoString → List Event
  | [] => []
  | text :: rest =>
    if isBlank text then
      if hasContent event then event :: eventsFrom {} rest else eventsFrom event rest
    else eventsFrom (accumulate event text) rest

/-- The error `readEvent` returns once a scanner with sticky error `err` is used up. -/
def finalError (err : Option GoError) : GoError :=
  match Scanner.Err { lines := [], err := err } with
  | some e => e
  | none => GoError.EOF

/-- A line fits the scanner's buffer: it has less than `MaxScanTokenSize` bytes. -/
def fits (text : GoString) : Bool :=
  decide (byteLen text < MaxScanTokenSize)

/-- The lines the scanner delivers: those ahead of the first line that does not
fit the buffer. -/
def tokens (lines : List GoString) : List GoString :=
  lines.takeWhile fits

/-- The error that ends the decoding of a source with the given lines and sticky
error: `ErrTooLong` when a line does not fit the buffer, else the final error. -/
def scanError (lines : List GoString) (err : Option GoError) : GoError :=
  if lines.all fits then finalError err else ErrTooLong

/-- A line of exactly `MaxScanTokenSize` bytes, all of them the letter `a`. -/
@[irreducible]
def longLine : GoString :=
  List.replicate MaxScanTokenSize 'a'

/-- A line of exactly `MaxScanTokenSize` bytes, all of them spaces. -/
@[irreducible]
def longBlank : GoString :=
  List.replicate MaxScanTokenSize ' '

/-- The function `strings.Join`: the elements joined with `sep` between each
consecutive pair. -/
def Join : List GoString → GoString → GoString
  | [], _ => []
  | [a], _ => a
  | a :: b :: rest, sep => a ++ sep ++ Join (b :: rest) sep

/-- The trimmed field name of a line: the trimmed text before the first colon
of the trimmed line; `none` for a line without a colon. -/
def fieldName (text : GoString) : Option GoString :=
  let line := TrimSpace text
  (Index line [':']).map (fun i => TrimSpace (line.take i))

/-- The trimmed field value of a line: the trimmed text after the first colon
of the trimmed line; `none` for a line without a colon. -/
def fieldValue (text : GoString) : Option GoString :=
  let line := TrimSpace text
  (Index line [':']).map (fun i => TrimSpace (line.drop (i + 1)))

/-- The value of a `data:` line, `none` for any other line. (A blank line has
no colon and a comment has the empty field name, so neither is a `data:` line.) -/
def dataValue (text : GoString) : Option GoString :=
  if fieldName text = some ['d', 'a', 't', 'a'] then fieldValue text else none

/-- The values of the `data:` lines among the given lines, in arrival order. -/
def dataValues (lines : List GoString) : List GoString :=
  lines.filterMap dataValue

/-- A comment line: its first non-whitespace character is a colon. -/
def isComment (text : GoString) : Bool :=
  decide ((text.dropWhile isSpace).head? = some ':')

/-- The input without the lines after its last blank line (all of them when
there is no blank line). -/
def dropTrailingFrame (lines : List GoString) : List GoString :=
  lines.rdropWhile (fun text => !isBlank text)

/-- Appending one `data:` value to the data accumulated so far, as the `data`
case of `readEvent` does. -/
def appendData (data value : GoString) : GoString :=
  (if data ≠ [] then data ++ ['\n'] else data) ++ value

/-! ## Driving a stream -/

/-- The stream after `n` calls of `Next`. -/
def Stream.afterCalls {T : Type} (unmarshal : GoString → Except GoError T) :
    Nat → Stream T → Stream T
  | 0, s => s
  | n + 1, s => Stream.afterCalls unmarshal n (s.Next unmarshal).2

/-- Number of lines the scanner of the stream's decoder still holds. -/
def Stream.pending {T : Type} (s : Stream T) : Nat :=
  match s.decoder with
  | none => 0
  | some d => d.pending

/-- The consumer loop `for s.Next() { use(s.Current()) }`, at most `fuel` calls
of `Next`: the values seen through `Current`, in order, and the stream after the
call of `Next` that returned false. `none` when `fuel` calls were not enough. -/
def collectFuel {T : Type} (unmarshal : GoString → Except GoError T) (zero : T) :
    Nat → Stream T → Option (List T × Stream T)
  | 0, _ => none
  | fuel + 1, s =>
    match s.Next unmarshal with
    | (true, s') =>
      (collectFuel unmarshal zero fuel s').map (fun r => (s'.Current zero :: r.1, r.2))
    | (false, s') => some ([], s')

/-- The consumer loop `for s.Next() { use(s.Current()) }`. Every call of `Next`
that returns true consumes a line, so one call more than there are lines is enough. -/
def collect {T : Type} (unmarshal : GoString → Except GoError T) (zero : T)
    (s : Stream T) : Option (List T × Stream T) :=
  collectFuel unmarshal zero (s.pending + 1) s

/-- The values of the longest run of leading events whose data deserializes, in
order, and the error of the first event whose data does not, if there is one. -/
def deliver {T : Type} (unmarshal : GoString → Except GoError T) :
    List Event → List T × Option GoError
  | [] => ([], none)
  | event :: rest =>
    match unmarshal event.Data with
    | .ok value => (value :: (deliver unmarshal rest).1, (deliver unmarshal rest).2)
    | .error err => ([], some err)

/-- A stream that has stopped: it holds an error, or its decoder is at a clean
end of input. -/
def Stream.stopped {T : Type} (s : Stream T) : Prop :=
  s.err ≠ none ∨ ∃ d, s.decoder = some d ∧ d.readEvent = ((none, some GoError.EOF), d)

/-- A deserializer for examples, with `T := Nat`: the data `1` and `2` are the
numbers one and two, any other data is rejected. -/
def unmarshalDigit (data : GoString) : Except GoError Nat :=
  if data = ['1'] then .ok 1
  else if data = ['2'] then .ok 2
  else .error (GoError.errorf "invalid character")

/-- The values of the `data:` lines of a frame, without the empty values that
come before the first non-empty one, joined by a newline. -/
def joinedData (frame : List GoString) : GoString :=
  Join ((dataValues frame).dropWhile List.isEmpty) ['\n']

/-- The function `strings.Split` for a separator of one character, the case used
here: the pieces of `s` between the occurrences of `sep` (one empty piece for the
empty string). -/
def Split : GoString → Char → List GoString
  | [], _ => [[]]
  | c :: s, sep =>
    if c = sep then [] :: Split s sep
    else
      match Split s sep with
      | [] => [[c]]
      | piece :: pieces => (c :: piece) :: pieces

/-- The value of a line whose field name is `name`, `none` for any other line. -/
def namedValue (name text : GoString) : Option GoString :=
  if fieldName text = some name then fieldValue text else none

/-- The value of the last line of a frame whose field name is `name`, empty when
the frame has no such line. -/
def lastValue (name : GoString) (frame : List GoString) : GoString :=
  ((frame.filterMap (namedValue name)).getLast?).getD []

/-- Two lines that differ only in leading and trailing white space. -/
def sameUpToSpace (a b : GoString) : Prop :=
  ∃ core l r l' r' : GoString,
    (∀ c ∈ l, isSpace c = true) ∧ (∀ c ∈ r, isSpace c = true) ∧
    (∀ c ∈ l', isSpace c = true) ∧ (∀ c ∈ r', isSpace c = true) ∧
    a = l ++ core ++ r ∧ b = l' ++ core ++ r'

end ssestream

namespace ssestream

/-! ## The scan loop, line by line -/

theorem fits_iff (text : GoString) : fits text = true ↔ byteLen text < MaxScanTokenSize := by
  simp [fits]

theorem fits_false_iff (text : GoString) :
    fits text = false ↔ MaxScanTokenSize ≤ byteLen text := by
  simp [fits]

theorem all_fit_of_bound {lines : List GoString}
    (h : ∀ t ∈ lines, byteLen t < MaxScanTokenSize) : ∀ t ∈ lines, fits t = true :=
  fun t ht => (fits_iff t).2 (h t ht)

theorem TrimSpace_dropCR (text : GoString) : TrimSpace (dropCR text) = TrimSpace text := by
  unfold dropCR
  split_ifs with h
  · have h1 := List.dropLast_append_getLast? '\r' (by rw [h]; exact rfl)
    have hr : ∀ c ∈ ['\r'], isSpace c = true := by decide
    unfold TrimSpace
    conv_rhs => rw [← h1]
    rw [List.dropWhile_append]
    cases hx : text.dropLast.dropWhile isSpace with
    | nil => simp [List.dropWhile, show isSpace '\r' = true from rfl, List.rdropWhile]
    | cons c t =>
      simp only [List.isEmpty_cons, Bool.false_eq_true, if_false]
      rw [List.rdropWhile_concat, if_pos (show isSpace '\r' = true from rfl)]
  · rfl

/-- The loop at a line that does not fit the buffer: the scan stops with `ErrTooLong`. -/
theorem scanLoop_cons_long (event : Event) (err : Option GoError) {text : GoString}
    (rest : List GoString) (h : fits text = false) :
    scanLoop event err (text :: rest) = (none, { lines := [], err := some ErrTooLong }) := by
  rw [scanLoop, if_pos ((fits_false_iff text).1 h)]

/-- The loop at a line that fits the buffer. -/
theorem scanLoop_cons (event : Event) (err : Option GoError) {text : GoString}
    (rest : List GoString) (h : fits text = true) :
    scanLoop event err (text :: rest) =
      if isBlank text then
        if hasContent event then (some event, { lines := rest, err := err })
        else scanLoop event err rest
      else scanLoop (accumulate event text) err rest := by
  have hlt : ¬ MaxScanTokenSize ≤ byteLen text := Nat.not_le.2 ((fits_iff text).1 h)
  rw [scanLoop, if_neg hlt]
  simp only [TrimSpace_dropCR, isBlank, hasContent, accumulate, decide_eq_true_eq]
  by_cases hb : TrimSpace text = []
  · simp [hb]
  · simp only [hb, if_false]
    by_cases hc : HasPrefix (TrimSpace text) [':'] = true
    · simp [hc]
    · simp only [hc, if_false]
      cases hi : Index (TrimSpace text) [':'] with
      | none => simp
      | some i =>
        simp only
        by_cases hd : TrimSpace (List.take i (TrimSpace text)) = ['d', 'a', 't', 'a']
        · simp only [hd, if_true]
          by_cases he : event.Data = []
          · simp [he]
          · simp [he]
        · simp only [hd, if_false]
          split_ifs <;> rfl

theorem accumulate_Retry (event : Event) (text : GoString) :
    (accumulate event text).Retry = event.Retry := by
  unfold accumulate
  simp only
  by_cases hc : HasPrefix (TrimSpace text) [':'] = true
  · simp [hc]
  · simp only [hc]
    cases Index (TrimSpace text) [':'] with
    | none => rfl
    | some i => simp only; split_ifs <;> rfl

theorem eventsFrom_cons (event : Event) (text : GoString) (rest : List GoString) :
    eventsFrom event (text :: rest) =
      if isBlank text then
        if hasContent event then event :: eventsFrom {} rest else eventsFrom event rest
      else eventsFrom (accumulate event text) rest := rfl

theorem tokens_cons_fit {text : GoString} (rest : List GoString) (h : fits text = true) :
    tokens (text :: rest) = text :: tokens rest := by
  simp [tokens, List.takeWhile_cons, h]

theorem tokens_cons_long {text : GoString} (rest : List GoString) (h : fits text = false) :
    tokens (text :: rest) = [] := by
  simp [tokens, List.takeWhile_cons, h]

theorem tokens_of_all_fit {lines : List GoString} (h : ∀ t ∈ lines, fits t = true) :
    tokens lines = lines :=
  List.takeWhile_eq_self_iff.2 h

theorem scanError_cons_fit {text : GoString} (rest : List GoString) (err : Option GoError)
    (h : fits text = true) : scanError (text :: rest) err = scanError rest err := by
  simp [scanError, h]

theorem scanError_cons_long {text : GoString} (rest : List GoString) (err : Option GoError)
    (h : fits text = false) : scanError (text :: rest) err = ErrTooLong := by
  simp [scanError, h]

theorem scanError_of_all_fit {lines : List GoString} (err : Option GoError)
    (h : ∀ t ∈ lines, fits t = true) : scanError lines err = finalError err := by
  have h' : lines.all fits = true := List.all_eq_true.2 h
  simp [scanError, h']

theorem finalError_ErrTooLong : finalError (some ErrTooLong) = ErrTooLong := by
  decide

/-- When the loop returns an event, it is the first event of the lines the scanner
delivers, it has content, its `Retry` is the one the loop started with, lines were
consumed, and the scanner's error is as it was. -/
theorem scanLoop_some {lines : List GoString} (err : Option GoError) :
    ∀ {event e : Event} {sc' : Scanner}, scanLoop event err lines = (some e, sc') →
      eventsFrom event (tokens lines) = e :: eventsFrom {} (tokens sc'.lines) ∧
        sc'.lines.length < lines.length ∧ hasContent e = true ∧ e.Retry = event.Retry ∧
        sc'.err = err ∧ scanError sc'.lines err = scanError lines err := by
  induction lines with
  | nil => intro event e sc' h; simp [scanLoop] at h
  | cons text tail ih =>
    intro event e sc' h
    cases hf : fits text with
    | false => rw [scanLoop_cons_long event err tail hf] at h; simp at h
    | true =>
      rw [scanLoop_cons event err tail hf] at h
      rw [tokens_cons_fit tail hf, eventsFrom_cons, scanError_cons_fit tail err hf]
      cases hb : isBlank text with
      | true =>
        cases hc : hasContent event with
        | true =>
          rw [hb, hc, if_pos rfl, if_pos rfl] at h
          simp only [Prod.mk.injEq, Option.some.injEq] at h
          obtain ⟨rfl, rfl⟩ := h
          simp [hc]
        | false =>
          rw [hb, hc, if_pos rfl, if_neg (by simp)] at h
          obtain ⟨h1, h2, h3, h4, h5, h6⟩ := ih h
          rw [if_pos rfl, if_neg (by simp)]
          exact ⟨h1, by simp only [List.length_cons]; omega, h3, h4, h5, h6⟩
      | false =>
        rw [hb, if_neg (by simp)] at h
        obtain ⟨h1, h2, h3, h4, h5, h6⟩ := ih h
        rw [if_neg (by simp)]
        exact ⟨h1, by simp only [List.length_cons]; omega, h3,
          by rw [h4, accumulate_Retry], h5, h6⟩

/-- When the loop ends without an event, the lines the scanner delivers held no
event, no line is left, and the scanner's error is the one that ends the decoding. -/
theorem scanLoop_none {lines : List GoString} (err : Option GoError) :
    ∀ {event : Event} {sc' : Scanner}, scanLoop event err lines = (none, sc') →
      eventsFrom event (tokens lines) = [] ∧ sc'.lines = [] ∧
        finalError sc'.err = scanError lines err := by
  induction lines with
  | nil =>
    intro event sc' h
    simp only [scanLoop, Prod.mk.injEq, true_and] at h
    subst h
    exact ⟨rfl, rfl, rfl⟩
  | cons text tail ih =>
    intro event sc' h
    cases hf : fits text with
    | false =>
      rw [scanLoop_cons_long event err tail hf] at h
      simp only [Prod.mk.injEq, true_and] at h
      subst h
      rw [tokens_cons_long tail hf, scanError_cons_long tail err hf]
      exact ⟨rfl, rfl, finalError_ErrTooLong⟩
    | true =>
      rw [scanLoop_cons event err tail hf] at h
      rw [tokens_cons_fit tail hf, eventsFrom_cons, scanError_cons_fit tail err hf]
      cases hb : isBlank text with
      | true =>
        cases hc : hasContent event with
        | true => rw [hb, hc, if_pos rfl, if_pos rfl] at h; simp at h
        | false =>
          rw [hb, hc, if_pos rfl, if_neg (by simp)] at h
          rw [if_pos rfl, if_neg (by simp)]
          exact ih h
      | false =>
        rw [hb, if_neg (by simp)] at h
        rw [if_neg (by simp)]
        exact ih h

/-- A loop that returns an event has consumed lines, all fitting the buffer, up to
and including a blank line, and returns the same event whatever follows that
blank line. -/
theorem scanLoop_some_split {lines : List GoString} (err : Option GoError) :
    ∀ {event e : Event} {sc' : Scanner}, scanLoop event err lines = (some e, sc') →
      ∃ consumed b, isBlank b = true ∧ lines = consumed ++ b :: sc'.lines ∧
        (∀ t ∈ consumed, fits t = true) ∧ fits b = true ∧
        ∀ err' rest', scanLoop event err' (consumed ++ b :: rest') =
          (some e, { lines := rest', err := err' }) := by
  induction lines with
  | nil => intro event e sc' h; simp [scanLoop] at h
  | cons text tail ih =>
    intro event e sc' h
    cases hf : fits text with
    | false => rw [scanLoop_cons_long event err tail hf] at h; simp at h
    | true =>
      rw [scanLoop_cons event err tail hf] at h
      cases hb : isBlank text with
      | true =>
        cases hc : hasContent event with
        | true =>
          rw [hb, hc, if_pos rfl, if_pos rfl] at h
          simp only [Prod.mk.injEq, Option.some.injEq] at h
          obtain ⟨rfl, rfl⟩ := h
          refine ⟨[], text, hb, rfl, by simp, hf, fun err' rest' => ?_⟩
          rw [List.nil_append, scanLoop_cons event err' rest' hf, if_pos hb, if_pos hc]
        | false =>
          rw [hb, hc, if_pos rfl, if_neg (by simp)] at h
          obtain ⟨consumed, b, h1, h2, h3, h4, h5⟩ := ih h
          refine ⟨text :: consumed, b, h1, by rw [h2]; rfl, ?_, h4, fun err' rest' => ?_⟩
          · intro t ht
            rcases List.mem_cons.1 ht with rfl | ht
            · exact hf
            · exact h3 t ht
          · rw [List.cons_append, scanLoop_cons event err' _ hf, if_pos hb, hc,
              if_neg (by simp)]
            exact h5 err' rest'
      | false =>
        rw [hb, if_neg (by simp)] at h
        obtain ⟨consumed, b, h1, h2, h3, h4, h5⟩ := ih h
        refine ⟨text :: consumed, b, h1, by rw [h2]; rfl, ?_, h4, fun err' rest' => ?_⟩
        · intro t ht
          rcases List.mem_cons.1 ht with rfl | ht
          · exact hf
          · exact h3 t ht
        · rw [List.cons_append, scanLoop_cons event err' _ hf, hb, if_neg (by simp)]
          exact h5 err' rest'

theorem readEvent_scanner_none (d : Decoder) (h : d.scanner = none) :
    d.readEvent = ((none, some (GoError.errorf "scanner is nil")), d) := by
  simp [Decoder.readEvent, h]

theorem readEvent_of_some {r : Option Response} {sc sc' : Scanner} {e : Event}
    (h : scanLoop {} sc.err sc.lines = (some e, sc')) :
    Decoder.readEvent { response := r, scanner := some sc } =
      ((some e, none), { response := r, scanner := some sc' }) := by
  simp [Decoder.readEvent, h]

theorem readEvent_of_none {r : Option Response} {sc sc' : Scanner}
    (h : scanLoop {} sc.err sc.lines = (none, sc')) :
    Decoder.readEvent { response := r, scanner := some sc } =
      ((none, some (finalError sc'.err)), { response := r, scanner := some sc' }) := by
  simp only [Decoder.readEvent, h, finalError, Scanner.Err]
  split <;> simp_all

/-- Enough fuel: with more calls allowed than there are lines, the repeated
reading ends, with the events of the lines the scanner delivers and the error that
ends the decoding. -/
theorem readEventsFuel_eq (r : Option Response) (err : Option GoError) :
    ∀ (fuel : Nat) (lines : List GoString), lines.length < fuel →
      readEventsFuel fuel { response := r, scanner := some { lines := lines, err := err } } =
        some (eventsFrom {} (tokens lines), some (scanError lines err)) := by
  intro fuel
  induction fuel with
  | zero => intro lines h; omega
  | succ n ih =>
    intro lines hlen
    cases hs : scanLoop {} err lines with
    | mk o sc' =>
      have hs' : scanLoop {} (Scanner.mk lines err).err (Scanner.mk lines err).lines =
          (o, sc') := hs
      cases o with
      | none =>
        obtain ⟨h1, -, h3⟩ := scanLoop_none err hs
        simp only [readEventsFuel, readEvent_of_none hs', h1, h3]
      | some e =>
        obtain ⟨h1, h2, -, -, h5, h6⟩ := scanLoop_some err hs
        cases sc' with
        | mk lines' err' =>
          simp only at h1 h2 h5 h6
          subst h5
          simp only [readEventsFuel, readEvent_of_some hs', ih lines' (by omega), h1, h6,
            Option.map_some']

/-- Repeated reading, for any lines. -/
theorem readEvents_tokens (r : Option Response) (lines : List GoString)
    (err : Option GoError) :
    readEvents { response := r, scanner := some { lines := lines, err := err } } =
      some (eventsFrom {} (tokens lines), some (scanError lines err)) :=
  readEventsFuel_eq r err _ lines (by simp [Decoder.pending])

/-- Repeated reading, for lines that all fit the buffer. -/
theorem readEvents_eq (r : Option Response) (lines : List GoString) (err : Option GoError)
    (h : ∀ t ∈ lines, fits t = true) :
    readEvents { response := r, scanner := some { lines := lines, err := err } } =
      some (eventsFrom {} lines, some (finalError err)) := by
  rw [readEvents_tokens, tokens_of_all_fit h, scanError_of_all_fit err h]

theorem readEvents_decoderOf (lines : List GoString) (h : ∀ t ∈ lines, fits t = true) :
    readEvents (decoderOf lines) = some (eventsFrom {} lines, some GoError.EOF) := by
  have h := readEvents_eq none lines none h
  simpa [decoderOf, finalError, Scanner.Err] using h

theorem readEvents_scanner_none (r : Option Response) :
    readEvents { response := r, scanner := none } =
      some ([], some (GoError.errorf "scanner is nil")) := by
  simp [readEvents, readEventsFuel, Decoder.pending, Decoder.readEvent]

/-! ## Frames -/

theorem eq_empty_of_no_content {event : Event} (hc : hasContent event = false)
    (hr : event.Retry = 0) : event = {} := by
  cases event with
  | mk i e d r =>
    simp only [hasContent, decide_eq_false_iff_not, not_or, not_not] at hc
    simp only at hr
    obtain ⟨h1, h2, h3⟩ := hc
    subst h1 h2 h3 hr
    rfl

theorem foldl_accumulate_Retry (frame : List GoString) :
    ∀ event : Event, (frame.foldl accumulate event).Retry = event.Retry := by
  induction frame with
  | nil => intro event; rfl
  | cons text tail ih =>
    intro event
    rw [List.foldl_cons, ih, accumulate_Retry]

theorem frames_cons_blank {text : GoString} (rest : List GoString)
    (h : isBlank text = true) : frames (text :: rest) = [] :: frames rest := by
  simp [frames, h]

theorem frames_cons_line {text : GoString} (rest : List GoString)
    (h : isBlank text = false) :
    frames (text :: rest) =
      match frames rest with
      | [] => []
      | frame :: later => (text :: frame) :: later := by
  simp [frames, h]

theorem eventsFrom_cons_line (event : Event) {text : GoString} (rest : List GoString)
    (h : isBlank text = false) :
    eventsFrom event (text :: rest) = eventsFrom (accumulate event text) rest := by
  simp [eventsFrom, h]

theorem eventsFrom_cons_emit {event : Event} {text : GoString} (rest : List GoString)
    (h : isBlank text = true) (hc : hasContent event = true) :
    eventsFrom event (text :: rest) = event :: eventsFrom {} rest := by
  simp [eventsFrom, h, hc]

theorem eventsFrom_cons_skip {event : Event} {text : GoString} (rest : List GoString)
    (h : isBlank text = true) (hc : hasContent event = false) :
    eventsFrom event (text :: rest) = eventsFrom event rest := by
  simp [eventsFrom, h, hc]

/-- The events of an input are those of its frames: the first frame continues
the event accumulated so far, every later one starts from nothing. -/
theorem eventsFrom_frames (lines : List GoString) :
    ∀ event : Event, event.Retry = 0 →
      eventsFrom event lines =
        match frames lines with
        | [] => []
        | frame :: later =>
          (frame.foldl accumulate event :: later.map frameEvent).filter hasContent := by
  induction lines with
  | nil => intro event _; rfl
  | cons text tail ih =>
    intro event hr
    have h0 : eventsFrom {} tail = ((frames tail).map frameEvent).filter hasContent := by
      rw [ih {} rfl]
      cases frames tail with
      | nil => rfl
      | cons frame later => rfl
    cases hb : isBlank text with
    | true =>
      rw [frames_cons_blank tail hb]
      simp only [List.foldl_nil]
      cases hc : hasContent event with
      | true => rw [eventsFrom_cons_emit tail hb hc, List.filter_cons_of_pos hc, h0]
      | false =>
        rw [eventsFrom_cons_skip tail hb hc, List.filter_cons_of_neg (by simp [hc]),
          eq_empty_of_no_content hc hr, h0]
    | false =>
      rw [frames_cons_line tail hb, eventsFrom_cons_line event tail hb,
        ih _ (by rw [accumulate_Retry, hr])]
      cases frames tail with
      | nil => rfl
      | cons frame later => rfl

theorem eventsFrom_empty_frames (lines : List GoString) :
    eventsFrom {} lines = ((frames lines).map frameEvent).filter hasContent := by
  rw [eventsFrom_frames lines {} rfl]
  cases frames lines with
  | nil => rfl
  | cons frame later => rfl

/-! ## Lines that leave the decoding unchanged -/

/-- Decoding after a common beginning depends only on how the rest decodes. -/
theorem eventsFrom_append_congr {xs ys : List GoString}
    (h : ∀ event, eventsFrom event xs = eventsFrom event ys) (before : List GoString) :
    ∀ event, eventsFrom event (before ++ xs) = eventsFrom event (before ++ ys) := by
  induction before with
  | nil => exact h
  | cons text tail ih =>
    intro event
    simp only [List.cons_append, eventsFrom_cons, ih]

/-- A non-blank line that no accumulation notices can be inserted anywhere. -/
theorem eventsFrom_insert_ignored {text : GoString} (hb : isBlank text = false)
    (ha : ∀ event, accumulate event text = event) (before after : List GoString)
    (event : Event) :
    eventsFrom event (before ++ text :: after) = eventsFrom event (before ++ after) :=
  eventsFrom_append_congr
    (fun ev => by rw [eventsFrom_cons_line ev after hb, ha]) before event

/-- Blank lines met while nothing is accumulated are skipped. -/
theorem eventsFrom_skip_blanks {event : Event} (hc : hasContent event = false)
    (blanks after : List GoString) (hb : ∀ b ∈ blanks, isBlank b = true) :
    eventsFrom event (blanks ++ after) = eventsFrom event after := by
  induction blanks with
  | nil => rfl
  | cons b tail ih =>
    rw [List.cons_append, eventsFrom_cons_skip _ (hb b (List.mem_cons_self _ _)) hc]
    exact ih (fun b' hb' => hb b' (List.mem_cons_of_mem _ hb'))

/-- Lines without a blank line among them complete no frame. -/
theorem eventsFrom_unterminated (tail : List GoString)
    (hb : ∀ t ∈ tail, isBlank t = false) : ∀ event, eventsFrom event tail = [] := by
  induction tail with
  | nil => intro event; rfl
  | cons t rest ih =>
    intro event
    rw [eventsFrom_cons_line event rest (hb t (List.mem_cons_self _ _))]
    exact ih (fun t' ht' => hb t' (List.mem_cons_of_mem _ ht')) _

theorem rdropWhile_append_rest {α : Type} (p : α → Bool) (l : List α) :
    ∃ tail, l = l.rdropWhile p ++ tail ∧ ∀ t ∈ tail, p t = true := by
  induction l using List.reverseRecOn with
  | nil => exact ⟨[], rfl, by simp⟩
  | append_singleton l a ih =>
    rw [List.rdropWhile_concat]
    by_cases h : p a = true
    · obtain ⟨tail, h1, h2⟩ := ih
      refine ⟨tail ++ [a], ?_, ?_⟩
      · rw [if_pos h, ← List.append_assoc, ← h1]
      · intro t ht
        rcases List.mem_append.1 ht with ht | ht
        · exact h2 t ht
        · rw [List.mem_singleton.1 ht]; exact h
    · exact ⟨[], by rw [if_neg h, List.append_nil], by simp⟩

theorem readEvent_hasContent {d d' : Decoder} {event : Event} {err : Option GoError}
    (h : d.readEvent = ((some event, err), d')) :
    hasContent event = true ∧ event.Retry = 0 := by
  cases d with
  | mk r scanner =>
    cases scanner with
    | none => simp [Decoder.readEvent] at h
    | some sc =>
      cases hs : scanLoop {} sc.err sc.lines with
      | mk o sc' =>
        cases o with
        | none => rw [readEvent_of_none hs] at h; simp at h
        | some e =>
          rw [readEvent_of_some hs] at h
          simp only [Prod.mk.injEq, Option.some.injEq] at h
          obtain ⟨-, -, h3, h4, -, -⟩ := scanLoop_some sc.err hs
          rw [← h.1.1]
          exact ⟨h3, h4⟩

/-! ## Trimming and splitting of single lines -/

theorem rdropWhile_cons_of_neg {α : Type} (p : α → Bool) (a : α) (h : p a = false)
    (l : List α) : (a :: l).rdropWhile p = a :: l.rdropWhile p := by
  induction l using List.reverseRecOn with
  | nil => simp [List.rdropWhile, h]
  | append_singleton l x ih =>
    rw [← List.cons_append, List.rdropWhile_concat, List.rdropWhile_concat, ih]
    split_ifs <;> rfl

theorem dropWhile_head_not {α : Type} (p : α → Bool) {l t : List α} {c : α}
    (h : l.dropWhile p = c :: t) : p c = false := by
  induction l with
  | nil => simp at h
  | cons x xs ih =>
    rw [List.dropWhile_cons] at h
    by_cases hx : p x = true
    · rw [if_pos hx] at h; exact ih h
    · rw [if_neg hx] at h
      simp only [List.cons.injEq] at h
      rw [← h.1]; simpa using hx

theorem mem_of_mem_TrimSpace {c : Char} {text : GoString} (h : c ∈ TrimSpace text) :
    c ∈ text := by
  unfold TrimSpace at h
  obtain ⟨tail, h1, -⟩ := rdropWhile_append_rest isSpace (text.dropWhile isSpace)
  have h2 : c ∈ text.dropWhile isSpace := by
    rw [h1]; exact List.mem_append_left _ h
  exact (List.dropWhile_sublist isSpace).subset h2

/-- Trimming a line whose first non-space character is `c` keeps `c` in front. -/
theorem TrimSpace_of_dropWhile {text t : GoString} {c : Char}
    (h : text.dropWhile isSpace = c :: t) :
    TrimSpace text = c :: t.rdropWhile isSpace := by
  unfold TrimSpace
  rw [h, rdropWhile_cons_of_neg isSpace c (dropWhile_head_not isSpace h)]

theorem TrimSpace_cons_of_not_space {c : Char} (h : isSpace c = false) (t : GoString) :
    TrimSpace (c :: t) = c :: t.rdropWhile isSpace :=
  TrimSpace_of_dropWhile (by rw [List.dropWhile_cons, h]; rfl)

theorem HasPrefix_colon (c : Char) (t : GoString) :
    HasPrefix (c :: t) [':'] = decide (c = ':') := by
  simp [HasPrefix]

theorem Index_colon_cons (c : Char) (t : GoString) :
    Index (c :: t) [':'] = if c = ':' then some 0 else (Index t [':']).map (· + 1) := by
  rw [Index, HasPrefix_colon]
  by_cases h : c = ':' <;> simp [h]

theorem Index_colon_none {s : GoString} (h : ':' ∉ s) : Index s [':'] = none := by
  induction s with
  | nil => simp [Index]
  | cons c t ih =>
    rw [Index_colon_cons]
    have h1 : c ≠ ':' := fun hc => h (by rw [hc]; exact List.mem_cons_self _ _)
    have h2 : ':' ∉ t := fun ht => h (List.mem_cons_of_mem _ ht)
    rw [if_neg h1, ih h2]; rfl

theorem Index_of_HasPrefix {line : GoString} (h : HasPrefix line [':'] = true) :
    Index line [':'] = some 0 := by
  cases line with
  | nil => simp [HasPrefix] at h
  | cons c t =>
    rw [HasPrefix_colon] at h
    rw [Index_colon_cons, if_pos (by simpa using h)]

/-- What a line does to the accumulating event, through its field name and value. -/
theorem accumulate_eq (event : Event) (text : GoString) :
    accumulate event text =
      match fieldName text, fieldValue text with
      | some name, some value =>
        if name = ['d', 'a', 't', 'a'] then
          { event with
            Data := if event.Data = [] then value else event.Data ++ ['\n'] ++ value }
        else if name = ['e', 'v', 'e', 'n', 't'] then { event with Event := value }
        else if name = ['i', 'd'] then { event with ID := value }
        else event
      | _, _ => event := by
  unfold accumulate fieldName fieldValue
  simp only
  by_cases hc : HasPrefix (TrimSpace text) [':'] = true
  · rw [if_pos hc, Index_of_HasPrefix hc]
    simp only [Option.map_some', List.take_zero]
    rw [show TrimSpace [] = [] from rfl]
    simp
  · rw [if_neg hc]
    cases Index (TrimSpace text) [':'] with
    | none => rfl
    | some i => rfl

theorem accumulate_of_no_colon {text : GoString} (h : ':' ∉ text) (event : Event) :
    accumulate event text = event := by
  have h1 : Index (TrimSpace text) [':'] = none :=
    Index_colon_none (fun hm => h (mem_of_mem_TrimSpace hm))
  rw [accumulate_eq]
  simp [fieldName, h1]

theorem accumulate_of_other_name {text name : GoString} (h : fieldName text = some name)
    (h1 : name ≠ ['d', 'a', 't', 'a']) (h2 : name ≠ ['e', 'v', 'e', 'n', 't'])
    (h3 : name ≠ ['i', 'd']) (event : Event) :
    accumulate event text = event := by
  rw [accumulate_eq, h]
  cases fieldValue text with
  | none => rfl
  | some value => simp [h1, h2, h3]

theorem isBlank_of_fieldName {text name : GoString} (h : fieldName text = some name) :
    isBlank text = false := by
  unfold isBlank
  rw [decide_eq_false_iff_not]
  intro hb
  simp [fieldName, hb, Index] at h

theorem TrimSpace_of_isComment {text : GoString} (h : isComment text = true) :
    ∃ t, TrimSpace text = ':' :: t := by
  unfold isComment at h
  rw [decide_eq_true_eq] at h
  cases hd : text.dropWhile isSpace with
  | nil => rw [hd] at h; simp at h
  | cons c t =>
    rw [hd] at h
    simp only [List.head?_cons, Option.some.injEq] at h
    subst h
    exact ⟨_, TrimSpace_of_dropWhile hd⟩

theorem isBlank_of_isComment {text : GoString} (h : isComment text = true) :
    isBlank text = false := by
  obtain ⟨t, ht⟩ := TrimSpace_of_isComment h
  simp [isBlank, ht]

theorem accumulate_of_isComment {text : GoString} (h : isComment text = true)
    (event : Event) : accumulate event text = event := by
  obtain ⟨t, ht⟩ := TrimSpace_of_isComment h
  unfold accumulate
  simp [ht, HasPrefix]

theorem TrimSpace_retry (value : GoString) :
    TrimSpace (['r', 'e', 't', 'r', 'y', ':'] ++ value) =
      ['r', 'e', 't', 'r', 'y', ':'] ++ value.rdropWhile isSpace := by
  have h : ∀ c : Char, isSpace c = false → ∀ l : GoString,
      (c :: l).rdropWhile isSpace = c :: l.rdropWhile isSpace :=
    fun c hc l => rdropWhile_cons_of_neg isSpace c hc l
  simp only [List.cons_append, List.nil_append]
  rw [TrimSpace_cons_of_not_space (by decide), h _ (by decide), h _ (by decide),
    h _ (by decide), h _ (by decide), h _ (by decide)]

theorem fieldName_retry (value : GoString) :
    fieldName (['r', 'e', 't', 'r', 'y', ':'] ++ value) = some ['r', 'e', 't', 'r', 'y'] := by
  have h := TrimSpace_retry value
  unfold fieldName
  simp only [List.cons_append, List.nil_append] at h ⊢
  rw [h]
  simp only [Index_colon_cons, Char.reduceEq, if_false, if_true, Option.map_some',
    Option.map_map]
  rfl

/-! ## The data of a frame -/

theorem accumulate_Data (event : Event) (text : GoString) :
    (accumulate event text).Data =
      match dataValue text with
      | some value => appendData event.Data value
      | none => event.Data := by
  rw [accumulate_eq]
  unfold dataValue appendData
  cases hn : fieldName text with
  | none => simp
  | some name =>
    cases hv : fieldValue text with
    | none => simp
    | some value =>
      by_cases h1 : name = ['d', 'a', 't', 'a']
      · by_cases h2 : event.Data = []
        · simp [h1, h2]
        · simp [h1, h2]
      · simp only [h1, if_false, Option.some.injEq]
        split_ifs <;> rfl

theorem foldl_accumulate_Data (frame : List GoString) :
    ∀ event : Event,
      (frame.foldl accumulate event).Data = (dataValues frame).foldl appendData event.Data := by
  induction frame with
  | nil => intro event; rfl
  | cons text tail ih =>
    intro event
    rw [List.foldl_cons, ih, accumulate_Data]
    unfold dataValues
    cases hd : dataValue text with
    | none => rw [List.filterMap_cons_none hd]
    | some value => rw [List.filterMap_cons_some hd, List.foldl_cons]

theorem Join_cons_cons (a b : GoString) (rest : List GoString) (sep : GoString) :
    Join (a :: b :: rest) sep = a ++ sep ++ Join (b :: rest) sep := rfl

theorem foldl_appendData_of_ne (values : List GoString) :
    ∀ data : GoString, data ≠ [] →
      values.foldl appendData data = Join (data :: values) ['\n'] := by
  induction values with
  | nil => intro data _; rfl
  | cons v vs ih =>
    intro data hd
    have h1 : appendData data v = data ++ ['\n'] ++ v := by simp [appendData, hd]
    have h2 : data ++ ['\n'] ++ v ≠ [] := by simp [hd]
    rw [List.foldl_cons, h1, ih _ h2, Join_cons_cons data v vs]
    cases vs with
    | nil => rfl
    | cons w ws =>
      rw [Join_cons_cons, Join_cons_cons v w ws]
      simp only [List.append_assoc]

theorem foldl_appendData_nil (values : List GoString) :
    values.foldl appendData [] = Join (values.dropWhile List.isEmpty) ['\n'] := by
  induction values with
  | nil => rfl
  | cons v vs ih =>
    cases v with
    | nil =>
      rw [List.foldl_cons, List.dropWhile_cons_of_pos (by rfl)]
      exact ih
    | cons c t =>
      rw [List.foldl_cons, List.dropWhile_cons_of_neg (by simp)]
      exact foldl_appendData_of_ne vs _ (by simp [appendData])

/-- The data accumulated from the lines of a frame. -/
theorem frameEvent_Data (frame : List GoString) :
    (frameEvent frame).Data = joinedData frame := by
  unfold frameEvent joinedData
  rw [foldl_accumulate_Data, foldl_appendData_nil]

/-- The loop run over the lines of a frame and its terminating blank line, all
fitting the buffer. -/
theorem scanLoop_frame (err : Option GoError) (frame : List GoString) (b : GoString)
    (rest : List GoString)
    (hframe : ∀ t ∈ frame, isBlank t = false) (hb : isBlank b = true)
    (hfit : ∀ t ∈ frame, fits t = true) (hfb : fits b = true) :
    ∀ event : Event,
      scanLoop event err (frame ++ b :: rest) =
        if hasContent (frame.foldl accumulate event) then
          (some (frame.foldl accumulate event), { lines := rest, err := err })
        else scanLoop (frame.foldl accumulate event) err rest := by
  induction frame with
  | nil =>
    intro event
    rw [List.nil_append, scanLoop_cons event err rest hfb, if_pos hb]
    rfl
  | cons text tail ih =>
    intro event
    rw [List.cons_append, scanLoop_cons event err _ (hfit text (List.mem_cons_self _ _)),
      hframe text (List.mem_cons_self _ _), if_neg (by simp),
      ih (fun t ht => hframe t (List.mem_cons_of_mem _ ht))
        (fun t ht => hfit t (List.mem_cons_of_mem _ ht))]
    rfl

/-- A call of `readEvent` that returns an event and stops right behind the blank
line that ends the first frame returns the event accumulated from that frame, and
the lines of the frame and the blank line fit the buffer. -/
theorem readEvent_frame_fits {r : Option Response} {err : Option GoError}
    {frame : List GoString} {b : GoString} {rest : List GoString} {event : Event}
    {e : Option GoError}
    (hframe : ∀ t ∈ frame, isBlank t = false) (hb : isBlank b = true)
    (hread : Decoder.readEvent
        { response := r, scanner := some { lines := frame ++ b :: rest, err := err } } =
      ((some event, e), { response := r, scanner := some { lines := rest, err := err } })) :
    event = frameEvent frame ∧ (∀ t ∈ frame, fits t = true) ∧ fits b = true := by
  cases hs : scanLoop {} err (frame ++ b :: rest) with
  | mk o sc' =>
    have hs' : scanLoop {} (Scanner.mk (frame ++ b :: rest) err).err
        (Scanner.mk (frame ++ b :: rest) err).lines = (o, sc') := hs
    cases o with
    | none => rw [readEvent_of_none hs'] at hread; simp at hread
    | some e' =>
      rw [readEvent_of_some hs'] at hread
      simp only [Prod.mk.injEq, Decoder.mk.injEq, Option.some.injEq, true_and] at hread
      obtain ⟨⟨rfl, -⟩, rfl⟩ := hread
      obtain ⟨consumed, b', -, h2, h3, h4, -⟩ := scanLoop_some_split err hs
      have h2' : frame ++ [b] ++ rest = consumed ++ [b'] ++ rest := by
        simpa using h2
      have h6 := List.append_cancel_right h2'
      obtain ⟨h7, h8⟩ := List.append_inj' h6 rfl
      simp only [List.cons.injEq, and_true] at h8
      subst h7 h8
      refine ⟨?_, h3, h4⟩
      rw [scanLoop_frame err frame b rest hframe hb h3 h4 {}] at hs
      cases hc : hasContent (frame.foldl accumulate {}) with
      | true =>
        rw [hc, if_pos rfl] at hs
        simp only [Prod.mk.injEq, Option.some.injEq] at hs
        exact hs.1.symm
      | false =>
        rw [hc, if_neg (by simp)] at hs
        have hlen := (scanLoop_some err hs).2.1
        exact absurd hlen (lt_irrefl _)

theorem readEvent_frame {r : Option Response} {err : Option GoError}
    {frame : List GoString} {b : GoString} {rest : List GoString} {event : Event}
    {e : Option GoError}
    (hframe : ∀ t ∈ frame, isBlank t = false) (hb : isBlank b = true)
    (hread : Decoder.readEvent
        { response := r, scanner := some { lines := frame ++ b :: rest, err := err } } =
      ((some event, e), { response := r, scanner := some { lines := rest, err := err } })) :
    event = frameEvent frame :=
  (readEvent_frame_fits hframe hb hread).1

/-! ## The typed stream -/

/-- The results `readEvent` can have: an event and no error, or no event and an error. -/
theorem readEvent_cases (d : Decoder) :
    (∃ event d', d.readEvent = ((some event, none), d') ∧ d'.pending < d.pending) ∨
    (∃ err, d.readEvent = ((none, some err), d) ∧ err ≠ GoError.EOF) ∨
    (∃ d', d.readEvent = ((none, some GoError.EOF), d') ∧
      d'.readEvent = ((none, some GoError.EOF), d')) ∨
    (∃ err d', d.readEvent = ((none, some err), d') ∧ err ≠ GoError.EOF) := by
  cases d with
  | mk r scanner =>
    cases scanner with
    | none =>
      right; left
      exact ⟨_, readEvent_scanner_none _ rfl, by simp⟩
    | some sc =>
      cases hs : scanLoop {} sc.err sc.lines with
      | mk o sc' =>
        cases o with
        | some e =>
          left
          exact ⟨e, _, readEvent_of_some hs, by
            simpa [Decoder.pending] using (scanLoop_some sc.err hs).2.1⟩
        | none =>
          right; right
          obtain ⟨-, hl, -⟩ := scanLoop_none sc.err hs
          cases sc' with
          | mk lines' err' =>
            simp only at hl
            subst hl
            by_cases he : finalError err' = GoError.EOF
            · left
              refine ⟨_, by rw [readEvent_of_none hs, he], ?_⟩
              have h0 : scanLoop {} (Scanner.mk [] err').err (Scanner.mk [] err').lines =
                  (none, Scanner.mk [] err') := rfl
              rw [readEvent_of_none h0, he]
            · right
              exact ⟨_, _, readEvent_of_none hs, he⟩

theorem Next_of_err {T : Type} (unmarshal : GoString → Except GoError T) {s : Stream T}
    (h : s.err ≠ none) : s.Next unmarshal = (false, s) := by
  simp [Stream.Next, h]

theorem Next_of_eof {T : Type} (unmarshal : GoString → Except GoError T) {s : Stream T}
    {d d' : Decoder} {o : Option Event} (he : s.err = none) (hd : s.decoder = some d)
    (hr : d.readEvent = ((o, some GoError.EOF), d')) :
    s.Next unmarshal = (false, { s with decoder := some d', hasNext := false }) := by
  simp [Stream.Next, he, hd, hr]

theorem Next_of_failure {T : Type} (unmarshal : GoString → Except GoError T) {s : Stream T}
    {d d' : Decoder} {o : Option Event} {err : GoError} (he : s.err = none)
    (hd : s.decoder = some d) (hr : d.readEvent = ((o, some err), d'))
    (hne : err ≠ GoError.EOF) :
    s.Next unmarshal = (false, { s with decoder := some d', err := some err }) := by
  simp [Stream.Next, he, hd, hr, hne]

theorem Next_of_unmarshal_error {T : Type} (unmarshal : GoString → Except GoError T)
    {s : Stream T} {d d' : Decoder} {event : Event} {err : GoError} (he : s.err = none)
    (hd : s.decoder = some d) (hr : d.readEvent = ((some event, none), d'))
    (hu : unmarshal event.Data = .error err) :
    s.Next unmarshal =
      (false, { s with decoder := some d',
                       err := some (GoError.wrapf "failed to unmarshal event data" err) }) := by
  simp [Stream.Next, he, hd, hr, hu]

theorem Next_of_unmarshal_ok {T : Type} (unmarshal : GoString → Except GoError T)
    {s : Stream T} {d d' : Decoder} {event : Event} {value : T} (he : s.err = none)
    (hd : s.decoder = some d) (hr : d.readEvent = ((some event, none), d'))
    (hu : unmarshal event.Data = .ok value) :
    s.Next unmarshal = (true, { s with decoder := some d', current := some value }) := by
  simp [Stream.Next, he, hd, hr, hu]

theorem Next_of_decoder_nil {T : Type} (unmarshal : GoString → Except GoError T)
    {s : Stream T} (he : s.err = none) (hd : s.decoder = none) :
    s.Next unmarshal = (false, { s with err := some (GoError.errorf "decoder is nil") }) := by
  simp [Stream.Next, he, hd]

/-- A call of `Next` that returns false leaves the stream stopped. -/
theorem stopped_of_Next_false {T : Type} (unmarshal : GoString → Except GoError T)
    (s : Stream T) (h : (s.Next unmarshal).1 = false) : (s.Next unmarshal).2.stopped := by
  by_cases he : s.err = none
  · cases hd : s.decoder with
    | none => rw [Next_of_decoder_nil unmarshal he hd]; left; simp
    | some d =>
      rcases readEvent_cases d with ⟨event, d', hr, -⟩ | ⟨err, hr, hne⟩ | ⟨d', hr, hr'⟩ |
        ⟨err, d', hr, hne⟩
      · cases hu : unmarshal event.Data with
        | error err => rw [Next_of_unmarshal_error unmarshal he hd hr hu]; left; simp
        | ok value => rw [Next_of_unmarshal_ok unmarshal he hd hr hu] at h; simp at h
      · rw [Next_of_failure unmarshal he hd hr hne]; left; simp
      · rw [Next_of_eof unmarshal he hd hr]; right; exact ⟨d', rfl, hr'⟩
      · rw [Next_of_failure unmarshal he hd hr hne]; left; simp
  · rw [Next_of_err unmarshal he]; left; exact he

/-- On a stopped stream `Next` returns false, keeps the error as it is and
leaves the stream stopped. -/
theorem Next_of_stopped {T : Type} (unmarshal : GoString → Except GoError T)
    {s : Stream T} (h : s.stopped) :
    (s.Next unmarshal).1 = false ∧ (s.Next unmarshal).2.err = s.err ∧
      (s.Next unmarshal).2.stopped := by
  by_cases he : s.err = none
  · rcases h with h | ⟨d, hd, hr⟩
    · exact absurd he h
    · rw [Next_of_eof unmarshal he hd hr]
      exact ⟨rfl, rfl, Or.inr ⟨d, rfl, hr⟩⟩
  · rw [Next_of_err unmarshal he]
    exact ⟨rfl, rfl, h⟩

theorem afterCalls_of_stopped {T : Type} (unmarshal : GoString → Except GoError T)
    (n : Nat) : ∀ {s : Stream T}, s.stopped →
      (Stream.afterCalls unmarshal n s).stopped ∧
        (Stream.afterCalls unmarshal n s).err = s.err := by
  induction n with
  | zero => intro s h; exact ⟨h, rfl⟩
  | succ k ih =>
    intro s h
    obtain ⟨-, h2, h3⟩ := Next_of_stopped unmarshal h
    obtain ⟨h4, h5⟩ := ih h3
    exact ⟨h4, by rw [← h2]; exact h5⟩

/-- Enough fuel: with more calls allowed than there are lines, the consumer loop
ends; it has seen the values of the events up to the first one that does not
deserialize, and the stream holds the matching error. -/
theorem collectFuel_eq {T : Type} (unmarshal : GoString → Except GoError T) (zero : T)
    (r : Option Response) (err : Option GoError) :
    ∀ (fuel : Nat) (lines : List GoString) (cur : Option T) (hn : Bool),
      lines.length < fuel →
      ∃ s', collectFuel unmarshal zero fuel
            { decoder := some { response := r, scanner := some { lines := lines, err := err } },
              err := none, current := cur, hasNext := hn } =
          some ((deliver unmarshal (eventsFrom {} (tokens lines))).1, s') ∧
        s'.err =
          (match (deliver unmarshal (eventsFrom {} (tokens lines))).2 with
           | some ue => some (GoError.wrapf "failed to unmarshal event data" ue)
           | none =>
             if scanError lines err = GoError.EOF then none else some (scanError lines err)) ∧
        s'.stopped := by
  intro fuel
  induction fuel with
  | zero => intro lines _ _ h; omega
  | succ k ih =>
    intro lines cur hn hlen
    have hstop := stopped_of_Next_false unmarshal
      ({ decoder := some { response := r, scanner := some { lines := lines, err := err } },
         err := none, current := cur, hasNext := hn } : Stream T)
    cases hs : scanLoop {} err lines with
    | mk o sc' =>
      have hs' : scanLoop {} (Scanner.mk lines err).err (Scanner.mk lines err).lines =
          (o, sc') := hs
      cases o with
      | none =>
        have hr := @readEvent_of_none r _ _ hs'
        obtain ⟨h1, -, h3⟩ := scanLoop_none err hs
        rw [h1, ← h3]
        by_cases he : finalError sc'.err = GoError.EOF
        · rw [he] at hr
          have hN := @Next_of_eof T unmarshal
            { decoder := some { response := r, scanner := some { lines := lines, err := err } },
              err := none, current := cur, hasNext := hn } _ _ _ rfl rfl hr
          rw [hN] at hstop
          refine ⟨_, by simp only [collectFuel, hN, deliver], ?_, hstop rfl⟩
          simp [deliver, he]
        · have hN := @Next_of_failure T unmarshal
            { decoder := some { response := r, scanner := some { lines := lines, err := err } },
              err := none, current := cur, hasNext := hn } _ _ _ _ rfl rfl hr he
          rw [hN] at hstop
          refine ⟨_, by simp only [collectFuel, hN, deliver], ?_, hstop rfl⟩
          simp [deliver, he]
      | some e =>
        have hr := @readEvent_of_some r _ _ _ hs'
        obtain ⟨h1, h2, -, -, h5, h6⟩ := scanLoop_some err hs
        rw [h1, ← h6]
        cases sc' with
        | mk lines' err' =>
          simp only at h2 h5 h6 ⊢
          subst h5
          cases hu : unmarshal e.Data with
          | error ue =>
            have hN := @Next_of_unmarshal_error T unmarshal
              { decoder := some { response := r,
                                  scanner := some { lines := lines, err := err' } },
                err := none, current := cur, hasNext := hn } _ _ _ _ rfl rfl hr hu
            rw [hN] at hstop
            refine ⟨_, by simp only [collectFuel, hN, deliver, hu], ?_, hstop rfl⟩
            simp [deliver, hu]
          | ok value =>
            have hN := @Next_of_unmarshal_ok T unmarshal
              { decoder := some { response := r,
                                  scanner := some { lines := lines, err := err' } },
                err := none, current := cur, hasNext := hn } _ _ _ _ rfl rfl hr hu
            obtain ⟨s', h3, h4, h5⟩ := ih lines' (some value) hn (by omega)
            refine ⟨s', ?_, ?_, h5⟩
            · simp only [collectFuel, hN]
              rw [h3]
              simp [deliver, hu, Stream.Current]
            · rw [h4]
              simp [deliver, hu]

theorem collect_scanner_none {T : Type} (unmarshal : GoString → Except GoError T) (zero : T)
    (r : Option Response) :
    ∃ s', collect unmarshal zero (NewStream (some { response := r, scanner := none }) none) =
        some ([], s') ∧
      s'.err = some (GoError.errorf "scanner is nil") ∧ s'.stopped := by
  have hr := readEvent_scanner_none { response := r, scanner := none } rfl
  have hN := @Next_of_failure T unmarshal
    (NewStream (some { response := r, scanner := none }) none) _ _ _ _ rfl rfl hr (by simp)
  have hstop := stopped_of_Next_false unmarshal
    (NewStream (some { response := r, scanner := none }) none : Stream T)
  rw [hN] at hstop
  exact ⟨_, by simp only [collect, collectFuel, hN], rfl, hstop rfl⟩

/-- The events of a clean input whose lines all fit the buffer, frame by frame. -/
theorem readEvents_frames (lines : List GoString) (h : ∀ t ∈ lines, fits t = true) :
    readEvents (decoderOf lines) =
      some (((frames lines).map frameEvent).filter hasContent, some GoError.EOF) := by
  rw [readEvents_decoderOf lines h, eventsFrom_empty_frames]

/-- A call of `Next` that returns false leaves the stored value as it is. -/
theorem Next_false_current {T : Type} (unmarshal : GoString → Except GoError T)
    (s : Stream T) (h : (s.Next unmarshal).1 = false) :
    (s.Next unmarshal).2.current = s.current := by
  by_cases he : s.err = none
  · cases hd : s.decoder with
    | none => rw [Next_of_decoder_nil unmarshal he hd]
    | some d =>
      rcases readEvent_cases d with ⟨event, d', hr, -⟩ | ⟨err, hr, hne⟩ | ⟨d', hr, -⟩ |
        ⟨err, d', hr, hne⟩
      · cases hu : unmarshal event.Data with
        | error err => rw [Next_of_unmarshal_error unmarshal he hd hr hu]
        | ok value => rw [Next_of_unmarshal_ok unmarshal he hd hr hu] at h; simp at h
      · rw [Next_of_failure unmarshal he hd hr hne]
      · rw [Next_of_eof unmarshal he hd hr]
      · rw [Next_of_failure unmarshal he hd hr hne]
  · rw [Next_of_err unmarshal he]

/-- A call of `Next` that returns true has read an event whose data deserializes,
and stores the value. -/
theorem Next_true_current {T : Type} (unmarshal : GoString → Except GoError T)
    (s : Stream T) (h : (s.Next unmarshal).1 = true) :
    ∃ d d' event value, s.err = none ∧ s.decoder = some d ∧
      d.readEvent = ((some event, none), d') ∧ unmarshal event.Data = .ok value ∧
      (s.Next unmarshal).2 = { s with decoder := some d', current := some value } := by
  by_cases he : s.err = none
  · cases hd : s.decoder with
    | none => rw [Next_of_decoder_nil unmarshal he hd] at h; simp at h
    | some d =>
      rcases readEvent_cases d with ⟨event, d', hr, -⟩ | ⟨err, hr, hne⟩ | ⟨d', hr, -⟩ |
        ⟨err, d', hr, hne⟩
      · cases hu : unmarshal event.Data with
        | error err => rw [Next_of_unmarshal_error unmarshal he hd hr hu] at h; simp at h
        | ok value =>
          exact ⟨d, d', event, value, he, rfl, hr, hu, by
            rw [Next_of_unmarshal_ok unmarshal he hd hr hu]⟩
      · rw [Next_of_failure unmarshal he hd hr hne] at h; simp at h
      · rw [Next_of_eof unmarshal he hd hr] at h; simp at h
      · rw [Next_of_failure unmarshal he hd hr hne] at h; simp at h
  · rw [Next_of_err unmarshal he] at h; simp at h

/-- Calls of `Next` that all return false leave the stored value as it is. -/
theorem afterCalls_false_current {T : Type} (unmarshal : GoString → Except GoError T)
    (n : Nat) : ∀ s : Stream T,
      (∀ k, k < n → ((Stream.afterCalls unmarshal k s).Next unmarshal).1 = false) →
      (Stream.afterCalls unmarshal n s).current = s.current := by
  induction n with
  | zero => intro s _; rfl
  | succ m ih =>
    intro s h
    have h0 : (s.Next unmarshal).1 = false := h 0 (Nat.succ_pos m)
    have h1 := ih (s.Next unmarshal).2 (fun k hk => h (k + 1) (Nat.succ_lt_succ hk))
    rw [Stream.afterCalls, h1, Next_false_current unmarshal s h0]

/-- A stream that holds an error is not changed by any number of calls of `Next`. -/
theorem afterCalls_of_err {T : Type} (unmarshal : GoString → Except GoError T)
    (n : Nat) : ∀ s : Stream T, s.err ≠ none → Stream.afterCalls unmarshal n s = s := by
  induction n with
  | zero => intro s _; rfl
  | succ m ih =>
    intro s h
    rw [Stream.afterCalls, Next_of_err unmarshal h]
    exact ih s h

theorem finalError_of_ne {e : GoError} (h : e ≠ GoError.EOF) : finalError (some e) = e := by
  simp [finalError, Scanner.Err, h]

/-! ## White space around a line and its parts -/

theorem dropWhile_append_cons_of_neg {α : Type} (p : α → Bool) {a : α} (h : p a = false)
    (xs ys : List α) : (xs ++ a :: ys).dropWhile p = xs.dropWhile p ++ a :: ys := by
  induction xs with
  | nil => simp [List.dropWhile_cons, h]
  | cons x t ih =>
    rw [List.cons_append, List.dropWhile_cons, List.dropWhile_cons]
    by_cases hx : p x = true
    · rw [if_pos hx, if_pos hx, ih]
    · rw [if_neg hx, if_neg hx, List.cons_append]

theorem rdropWhile_append_cons_of_neg {α : Type} (p : α → Bool) {a : α} (h : p a = false)
    (xs ys : List α) : (xs ++ a :: ys).rdropWhile p = xs ++ a :: ys.rdropWhile p := by
  unfold List.rdropWhile
  rw [List.reverse_append, List.reverse_cons, List.append_assoc, List.singleton_append,
    dropWhile_append_cons_of_neg p h, List.reverse_append, List.reverse_cons,
    List.reverse_reverse]
  simp

theorem dropWhile_append_of_all {α : Type} (p : α → Bool) {ws : List α}
    (h : ∀ c ∈ ws, p c = true) (x : List α) : (ws ++ x).dropWhile p = x.dropWhile p := by
  induction ws with
  | nil => rfl
  | cons w t ih =>
    rw [List.cons_append, List.dropWhile_cons, if_pos (h w (List.mem_cons_self _ _))]
    exact ih (fun c hc => h c (List.mem_cons_of_mem _ hc))

theorem rdropWhile_append_of_all {α : Type} (p : α → Bool) {ws : List α}
    (h : ∀ c ∈ ws, p c = true) (x : List α) : (x ++ ws).rdropWhile p = x.rdropWhile p := by
  unfold List.rdropWhile
  rw [List.reverse_append, dropWhile_append_of_all p (fun c hc => h c (List.mem_reverse.1 hc))]

/-- White space added around a line does not change what trimming leaves. -/
theorem TrimSpace_pad {l r : GoString} (hl : ∀ c ∈ l, isSpace c = true)
    (hr : ∀ c ∈ r, isSpace c = true) (x : GoString) :
    TrimSpace (l ++ x ++ r) = TrimSpace x := by
  unfold TrimSpace
  rw [List.append_assoc, dropWhile_append_of_all isSpace hl, List.dropWhile_append]
  cases hx : x.dropWhile isSpace with
  | nil =>
    have hr' : r.dropWhile isSpace = [] := List.dropWhile_eq_nil_iff.2 hr
    simp [hr']
  | cons c t =>
    simp only [List.isEmpty_cons, Bool.false_eq_true, if_false]
    exact rdropWhile_append_of_all isSpace hr _

theorem TrimSpace_rdropWhile (v : GoString) :
    TrimSpace (v.rdropWhile isSpace) = TrimSpace v := by
  obtain ⟨tail, h1, h2⟩ := rdropWhile_append_rest isSpace v
  have h := @TrimSpace_pad [] tail (by simp) h2 (v.rdropWhile isSpace)
  rw [List.nil_append, ← h1] at h
  exact h.symm

theorem TrimSpace_dropWhile (v : GoString) :
    TrimSpace (v.dropWhile isSpace) = TrimSpace v := by
  unfold TrimSpace
  rw [List.dropWhile_idempotent]

theorem Index_append_colon {xs : GoString} (h : ':' ∉ xs) (ys : GoString) :
    Index (xs ++ ':' :: ys) [':'] = some xs.length := by
  induction xs with
  | nil => rw [List.nil_append, Index_colon_cons, if_pos rfl]; rfl
  | cons c t ih =>
    have h1 : c ≠ ':' := fun hc => h (by rw [hc]; exact List.mem_cons_self _ _)
    have h2 : ':' ∉ t := fun ht => h (List.mem_cons_of_mem _ ht)
    rw [List.cons_append, Index_colon_cons, if_neg h1, ih h2]
    rfl

theorem drop_length_succ_append_cons {α : Type} (xs : List α) (a : α) (ys : List α) :
    (xs ++ a :: ys).drop (xs.length + 1) = ys := by
  simp

/-- Trimming a line with a colon trims what is before its first colon on the left
and what is after it on the right. -/
theorem TrimSpace_split (name value : GoString) :
    TrimSpace (name ++ ':' :: value) =
      name.dropWhile isSpace ++ ':' :: value.rdropWhile isSpace := by
  unfold TrimSpace
  rw [dropWhile_append_cons_of_neg isSpace (by decide),
    rdropWhile_append_cons_of_neg isSpace (by decide)]

/-- A line is split at its first colon: the field name is the trimmed text before
it, the field value the trimmed text after it. -/
theorem fieldName_fieldValue_split {name : GoString} (h : ':' ∉ name) (value : GoString) :
    fieldName (name ++ ':' :: value) = some (TrimSpace name) ∧
    fieldValue (name ++ ':' :: value) = some (TrimSpace value) := by
  have h1 : ':' ∉ name.dropWhile isSpace :=
    fun hm => h ((List.dropWhile_sublist isSpace).subset hm)
  unfold fieldName fieldValue
  simp only [TrimSpace_split, Index_append_colon h1, Option.map_some']
  rw [List.take_left' rfl, drop_length_succ_append_cons, TrimSpace_dropWhile,
    TrimSpace_rdropWhile]
  exact ⟨rfl, rfl⟩

/-- The loop on a line with a colon that fits the buffer: the line is split at
its first colon, the trimmed name selects the field, the trimmed rest is the value. -/
theorem scanLoop_field_line (event : Event) (err : Option GoError) {name : GoString}
    (h : ':' ∉ name) (value : GoString) (rest : List GoString)
    (hfit : fits (name ++ ':' :: value) = true) :
    scanLoop event err ((name ++ ':' :: value) :: rest) =
      scanLoop
        (if TrimSpace name = ['d', 'a', 't', 'a'] then
          { event with Data := appendData event.Data (TrimSpace value) }
        else if TrimSpace name = ['e', 'v', 'e', 'n', 't'] then
          { event with Event := TrimSpace value }
        else if TrimSpace name = ['i', 'd'] then { event with ID := TrimSpace value }
        else event) err rest := by
  obtain ⟨hn, hv⟩ := fieldName_fieldValue_split h value
  rw [scanLoop_cons event err rest hfit, isBlank_of_fieldName hn, if_neg (by simp),
    accumulate_eq, hn, hv]
  simp only [appendData]
  by_cases hd : event.Data = []
  · simp [hd]
  · simp [hd]

theorem not_mem_colon_of_isSpace {ws : GoString} (h : ∀ c ∈ ws, isSpace c = true) :
    ':' ∉ ws := fun hm => absurd (h ':' hm) (by decide)

/-- A frame of one line and its blank line, both fitting the buffer: when the line
leaves `event` accumulated and `event` has content, `readEvent` returns it and
stops behind the blank line. -/
theorem readEvent_one_line {r : Option Response} {err : Option GoError}
    {line b : GoString} {rest : List GoString} {event : Event}
    (hb : isBlank b = true) (hfb : fits b = true)
    (hloop : scanLoop {} err (line :: b :: rest) = scanLoop event err (b :: rest))
    (hc : hasContent event = true) :
    Decoder.readEvent
        { response := r, scanner := some { lines := line :: b :: rest, err := err } } =
      ((some event, none), { response := r, scanner := some { lines := rest, err := err } }) := by
  have hs : scanLoop {} (Scanner.mk (line :: b :: rest) err).err
      (Scanner.mk (line :: b :: rest) err).lines =
        (some event, { lines := rest, err := err }) := by
    show scanLoop {} err (line :: b :: rest) = (some event, { lines := rest, err := err })
    rw [hloop, scanLoop_cons event err rest hfb, if_pos hb, if_pos hc]
  exact readEvent_of_some hs

/-- The loop on a line `name:v` with white space around a name that has none. -/
theorem scanLoop_padded_name (event : Event) (err : Option GoError) {l m name : GoString}
    (hl : ∀ c ∈ l, isSpace c = true) (hm : ∀ c ∈ m, isSpace c = true)
    (hname : ':' ∉ name) (htrim : TrimSpace name = name) (v : GoString)
    (rest : List GoString) (hfit : fits (l ++ name ++ m ++ ':' :: v) = true) :
    scanLoop event err ((l ++ name ++ m ++ ':' :: v) :: rest) =
      scanLoop
        (if name = ['d', 'a', 't', 'a'] then
          { event with Data := appendData event.Data (TrimSpace v) }
        else if name = ['e', 'v', 'e', 'n', 't'] then { event with Event := TrimSpace v }
        else if name = ['i', 'd'] then { event with ID := TrimSpace v }
        else event) err rest := by
  have hcol : ':' ∉ l ++ name ++ m := by
    intro hmem
    rcases List.mem_append.1 hmem with h1 | h1
    · rcases List.mem_append.1 h1 with h2 | h2
      · exact not_mem_colon_of_isSpace hl h2
      · exact hname h2
    · exact not_mem_colon_of_isSpace hm h1
  rw [scanLoop_field_line event err hcol v rest hfit, TrimSpace_pad hl hm, htrim]

/-! ## Joining and splitting the data -/

theorem Split_of_not_mem {sep : Char} : ∀ {v : GoString}, sep ∉ v → Split v sep = [v] := by
  intro v
  induction v with
  | nil => intro _; rfl
  | cons c t ih =>
    intro h
    have h1 : c ≠ sep := fun hc => h (by rw [hc]; exact List.mem_cons_self _ _)
    have h2 : sep ∉ t := fun ht => h (List.mem_cons_of_mem _ ht)
    rw [Split, if_neg h1, ih h2]

theorem Split_append_sep {sep : Char} (rest : GoString) :
    ∀ {v : GoString}, sep ∉ v → Split (v ++ sep :: rest) sep = v :: Split rest sep := by
  intro v
  induction v with
  | nil => intro _; rw [List.nil_append, Split, if_pos rfl]
  | cons c t ih =>
    intro h
    have h1 : c ≠ sep := fun hc => h (by rw [hc]; exact List.mem_cons_self _ _)
    have h2 : sep ∉ t := fun ht => h (List.mem_cons_of_mem _ ht)
    rw [List.cons_append, Split, if_neg h1, ih h2]

/-- Splitting what was joined gives back the pieces, when none contains the separator. -/
theorem Split_Join {sep : Char} (v : GoString) (vs : List GoString) :
    (∀ w ∈ v :: vs, sep ∉ w) → Split (Join (v :: vs) [sep]) sep = v :: vs := by
  induction vs generalizing v with
  | nil => intro h; exact Split_of_not_mem (h v (List.mem_cons_self _ _))
  | cons w ws ih =>
    intro h
    rw [Join_cons_cons, List.append_assoc, List.singleton_append,
      Split_append_sep _ (h v (List.mem_cons_self _ _)),
      ih w (fun x hx => h x (List.mem_cons_of_mem _ hx))]

theorem Join_ne_nil {v : GoString} (h : v ≠ []) (vs : List GoString) (sep : GoString) :
    Join (v :: vs) sep ≠ [] := by
  cases vs with
  | nil => exact h
  | cons w ws => rw [Join_cons_cons]; simp [h]

theorem joinedData_of_ne {frame : List GoString} {v : GoString} {vs : List GoString}
    (hv : dataValues frame = v :: vs) (hne : v ≠ []) :
    joinedData frame = Join (v :: vs) ['\n'] := by
  unfold joinedData
  rw [hv, List.dropWhile_cons_of_neg]
  cases v with
  | nil => exact absurd rfl hne
  | cons c t => simp

/-- A frame whose lines fit the buffer and whose accumulated event has content is
returned by `readEvent`, which stops behind its blank line. -/
theorem readEvent_frame_emit (r : Option Response) (err : Option GoError)
    {frame : List GoString} {b : GoString} (rest : List GoString)
    (hframe : ∀ t ∈ frame, isBlank t = false) (hb : isBlank b = true)
    (hfit : ∀ t ∈ frame, fits t = true) (hfb : fits b = true)
    (hc : hasContent (frameEvent frame) = true) :
    Decoder.readEvent
        { response := r, scanner := some { lines := frame ++ b :: rest, err := err } } =
      ((some (frameEvent frame), none),
        { response := r, scanner := some { lines := rest, err := err } }) := by
  have hs : scanLoop {} (Scanner.mk (frame ++ b :: rest) err).err
      (Scanner.mk (frame ++ b :: rest) err).lines =
        (some (frameEvent frame), { lines := rest, err := err }) := by
    show scanLoop {} err (frame ++ b :: rest) =
      (some (frameEvent frame), { lines := rest, err := err })
    rw [scanLoop_frame err frame b rest hframe hb hfit hfb]
    exact if_pos hc
  exact readEvent_of_some hs

/-- The loop on a `data:` line that fits the buffer: the value is appended, behind
a newline exactly when data is there already. -/
theorem scanLoop_data_line (event : Event) (err : Option GoError) {text value : GoString}
    (h : dataValue text = some value) (rest : List GoString) (hfit : fits text = true) :
    scanLoop event err (text :: rest) =
      scanLoop
        { event with
          Data := if event.Data = [] then value else event.Data ++ ['\n'] ++ value }
        err rest := by
  unfold dataValue at h
  by_cases hn : fieldName text = some ['d', 'a', 't', 'a']
  · rw [if_pos hn] at h
    rw [scanLoop_cons event err rest hfit, isBlank_of_fieldName hn, if_neg (by simp),
      accumulate_eq, hn, h]
    simp
  · rw [if_neg hn] at h
    exact absurd h (by simp)

/-! ## The event type and the id of a frame -/

theorem accumulate_Event (event : Event) (text : GoString) :
    (accumulate event text).Event =
      match namedValue ['e', 'v', 'e', 'n', 't'] text with
      | some value => value
      | none => event.Event := by
  rw [accumulate_eq]
  unfold namedValue
  cases hn : fieldName text with
  | none => simp
  | some name =>
    cases hv : fieldValue text with
    | none => simp
    | some value =>
      by_cases h1 : name = ['d', 'a', 't', 'a']
      · subst h1; simp
      · by_cases h2 : name = ['e', 'v', 'e', 'n', 't']
        · subst h2; simp
        · simp only [h1, h2, if_false, Option.some.injEq]
          split_ifs <;> rfl

theorem accumulate_ID (event : Event) (text : GoString) :
    (accumulate event text).ID =
      match namedValue ['i', 'd'] text with
      | some value => value
      | none => event.ID := by
  rw [accumulate_eq]
  unfold namedValue
  cases hn : fieldName text with
  | none => simp
  | some name =>
    cases hv : fieldValue text with
    | none => simp
    | some value =>
      by_cases h1 : name = ['d', 'a', 't', 'a']
      · subst h1; simp
      · by_cases h2 : name = ['e', 'v', 'e', 'n', 't']
        · subst h2; simp
        · by_cases h3 : name = ['i', 'd']
          · subst h3; simp
          · simp [h1, h2, h3]

theorem getLast?_cons_getD {α : Type} (v d : α) (l : List α) :
    ((v :: l).getLast?).getD d = (l.getLast?).getD v := by
  cases l with
  | nil => rfl
  | cons a t => rw [List.getLast?_cons_cons]; simp [List.getLast?_cons]

/-- A field that each line either replaces or leaves alone holds, after a frame,
the value of the last line that replaced it. -/
theorem foldl_last_write (field : Event → GoString) (value : GoString → Option GoString)
    (h : ∀ event text, field (accumulate event text) =
      match value text with
      | some v => v
      | none => field event)
    (frame : List GoString) :
    ∀ event : Event,
      field (frame.foldl accumulate event) =
        ((frame.filterMap value).getLast?).getD (field event) := by
  induction frame with
  | nil => intro event; rfl
  | cons text tail ih =>
    intro event
    rw [List.foldl_cons, ih, h]
    cases hv : value text with
    | none => rw [List.filterMap_cons_none hv]
    | some v => rw [List.filterMap_cons_some hv, getLast?_cons_getD]

theorem frameEvent_Event_ID (frame : List GoString) :
    (frameEvent frame).Event = lastValue ['e', 'v', 'e', 'n', 't'] frame ∧
    (frameEvent frame).ID = lastValue ['i', 'd'] frame :=
  ⟨foldl_last_write Event.Event _ accumulate_Event frame {},
    foldl_last_write Event.ID _ accumulate_ID frame {}⟩

/-! ## Lines that trim to the same text -/

theorem TrimSpace_eq_of_sameUpToSpace {a b : GoString} (h : sameUpToSpace a b) :
    TrimSpace a = TrimSpace b := by
  obtain ⟨core, l, r, l', r', hl, hr, hl', hr', ha, hb⟩ := h
  rw [ha, hb, TrimSpace_pad hl hr, TrimSpace_pad hl' hr']

theorem isBlank_congr {a b : GoString} (h : TrimSpace a = TrimSpace b) :
    isBlank a = isBlank b := by
  unfold isBlank
  rw [h]

theorem accumulate_congr {a b : GoString} (h : TrimSpace a = TrimSpace b) (event : Event) :
    accumulate event a = accumulate event b := by
  unfold accumulate
  rw [h]

theorem scanLoop_congr_head {a b : GoString} (h : TrimSpace a = TrimSpace b)
    (hf : fits a = fits b) (event : Event) (err : Option GoError) (rest : List GoString) :
    scanLoop event err (a :: rest) = scanLoop event err (b :: rest) := by
  cases hb : fits b with
  | true =>
    rw [scanLoop_cons event err rest (hf.trans hb), scanLoop_cons event err rest hb,
      isBlank_congr h, accumulate_congr h]
  | false =>
    rw [scanLoop_cons_long event err rest (hf.trans hb), scanLoop_cons_long event err rest hb]

theorem eventsFrom_congr {lines lines' : List GoString}
    (h : List.Forall₂ (fun a b => TrimSpace a = TrimSpace b) lines lines') :
    ∀ event, eventsFrom event lines = eventsFrom event lines' := by
  induction h with
  | nil => intro event; rfl
  | cons hab _ ih =>
    intro event
    rw [eventsFrom_cons, eventsFrom_cons, isBlank_congr hab, accumulate_congr hab, ih, ih, ih]

theorem isBlank_of_all_space {ws : GoString} (h : ∀ c ∈ ws, isSpace c = true) :
    isBlank ws = true := by
  have h1 := @TrimSpace_pad ws [] h (by simp) []
  rw [List.append_nil, List.append_nil] at h1
  unfold isBlank
  rw [h1]
  rfl

/-! ## Frame boundaries -/

/-- Behind a blank line the decoding starts afresh. -/
theorem eventsFrom_append_at_blank {b : GoString} (hb : isBlank b = true)
    (init after : List GoString) :
    ∀ event : Event, event.Retry = 0 →
      eventsFrom event (init ++ b :: after) =
        eventsFrom event (init ++ [b]) ++ eventsFrom {} after := by
  induction init with
  | nil =>
    intro event hr
    rw [List.nil_append, List.nil_append]
    cases hc : hasContent event with
    | true =>
      rw [eventsFrom_cons_emit _ hb hc, eventsFrom_cons_emit _ hb hc]
      rfl
    | false =>
      rw [eventsFrom_cons_skip _ hb hc, eventsFrom_cons_skip _ hb hc,
        eq_empty_of_no_content hc hr]
      rfl
  | cons text tail ih =>
    intro event hr
    rw [List.cons_append, List.cons_append]
    cases hbt : isBlank text with
    | true =>
      cases hc : hasContent event with
      | true =>
        rw [eventsFrom_cons_emit _ hbt hc, eventsFrom_cons_emit _ hbt hc, ih {} rfl]
        rfl
      | false =>
        rw [eventsFrom_cons_skip _ hbt hc, eventsFrom_cons_skip _ hbt hc, ih event hr]
    | false =>
      rw [eventsFrom_cons_line _ _ hbt, eventsFrom_cons_line _ _ hbt,
        ih _ (by rw [accumulate_Retry, hr])]

/-! ## Lines that do not fit the scanner's buffer -/

theorem tokens_append_of_all_fit {xs : List GoString} (h : ∀ t ∈ xs, fits t = true)
    (ys : List GoString) : tokens (xs ++ ys) = xs ++ tokens ys := by
  induction xs with
  | nil => rfl
  | cons x t ih =>
    rw [List.cons_append, tokens_cons_fit _ (h x (List.mem_cons_self _ _)),
      ih (fun u hu => h u (List.mem_cons_of_mem _ hu))]
    rfl

theorem scanError_append_of_all_fit {xs : List GoString} (h : ∀ t ∈ xs, fits t = true)
    (ys : List GoString) (err : Option GoError) :
    scanError (xs ++ ys) err = scanError ys err := by
  induction xs with
  | nil => rfl
  | cons x t ih =>
    rw [List.cons_append, scanError_cons_fit _ err (h x (List.mem_cons_self _ _)),
      ih (fun u hu => h u (List.mem_cons_of_mem _ hu))]

theorem mem_of_mem_tokens {t : GoString} {lines : List GoString} (h : t ∈ tokens lines) :
    t ∈ lines :=
  (List.takeWhile_sublist fits).subset h

/-- The events of the delivered lines behind a common beginning depend only on the
events of the lines that follow it. -/
theorem eventsFrom_tokens_append_congr {xs ys : List GoString}
    (hx : ∀ event, eventsFrom event (tokens xs) = eventsFrom event (tokens ys))
    (before : List GoString) :
    ∀ event, eventsFrom event (tokens (before ++ xs)) =
      eventsFrom event (tokens (before ++ ys)) := by
  induction before with
  | nil => exact hx
  | cons text tail ih =>
    intro event
    cases hf : fits text with
    | true =>
      rw [List.cons_append, List.cons_append, tokens_cons_fit _ hf, tokens_cons_fit _ hf,
        eventsFrom_cons, eventsFrom_cons, ih, ih, ih]
    | false =>
      rw [List.cons_append, List.cons_append, tokens_cons_long _ hf, tokens_cons_long _ hf]

theorem scanError_append_congr {xs ys : List GoString} (h : xs.all fits = ys.all fits)
    (before : List GoString) (err : Option GoError) :
    scanError (before ++ xs) err = scanError (before ++ ys) err := by
  unfold scanError
  rw [List.all_append, List.all_append, h]

/-- Repeated reading behind a common beginning. -/
theorem readEvents_append_congr (r : Option Response) (err : Option GoError)
    {xs ys : List GoString}
    (hx : ∀ event, eventsFrom event (tokens xs) = eventsFrom event (tokens ys))
    (hall : xs.all fits = ys.all fits) (before : List GoString) :
    ∃ events e,
      readEvents { response := r, scanner := some { lines := before ++ xs, err := err } } =
        some (events, some e) ∧
      readEvents { response := r, scanner := some { lines := before ++ ys, err := err } } =
        some (events, some e) := by
  refine ⟨_, _, ?_, readEvents_tokens r (before ++ ys) err⟩
  rw [readEvents_tokens, eventsFrom_tokens_append_congr hx before {},
    scanError_append_congr hall before err]

/-- A line that fits the buffer, is not blank and is not noticed by any
accumulation can be inserted anywhere. -/
theorem readEvents_insert_ignored (r : Option Response) (err : Option GoError)
    {text : GoString} (hf : fits text = true) (hb : isBlank text = false)
    (ha : ∀ event, accumulate event text = event) (before after : List GoString) :
    ∃ events e,
      readEvents { response := r,
                   scanner := some { lines := before ++ text :: after, err := err } } =
        some (events, some e) ∧
      readEvents { response := r, scanner := some { lines := before ++ after, err := err } } =
        some (events, some e) := by
  refine readEvents_append_congr r err (fun ev => ?_) ?_ before
  · rw [tokens_cons_fit after hf, eventsFrom_cons_line ev _ hb, ha]
  · simp [hf]

theorem readEvents_long_head (r : Option Response) (err : Option GoError) {text : GoString}
    (hf : fits text = false) (rest : List GoString) :
    readEvents { response := r, scanner := some { lines := text :: rest, err := err } } =
      some ([], some ErrTooLong) := by
  rw [readEvents_tokens, tokens_cons_long rest hf, scanError_cons_long rest err hf]
  rfl

theorem byteLen_append (xs ys : GoString) : byteLen (xs ++ ys) = byteLen xs + byteLen ys := by
  induction xs with
  | nil => simp [byteLen]
  | cons c t ih => rw [List.cons_append, byteLen, byteLen, ih, Nat.add_assoc]

theorem byteLen_replicate (c : Char) (n : Nat) :
    byteLen (List.replicate n c) = n * c.utf8Size := by
  induction n with
  | zero => simp [byteLen]
  | succ k ih => rw [List.replicate_succ, byteLen, ih]; ring

theorem byteLen_longLine : byteLen longLine = MaxScanTokenSize := by
  unfold longLine
  rw [byteLen_replicate, show Char.utf8Size 'a' = 1 from by decide, Nat.mul_one]

theorem fits_longLine : fits longLine = false := by
  rw [fits_false_iff, byteLen_longLine]

theorem fits_append_longLine (xs : GoString) : fits (xs ++ longLine) = false := by
  rw [fits_false_iff, byteLen_append, byteLen_longLine]
  omega

theorem not_mem_longLine {c : Char} (h : c ≠ 'a') : c ∉ longLine := by
  unfold longLine
  intro hm
  exact h (List.eq_of_mem_replicate hm)

theorem longLine_eq_cons : longLine = 'a' :: List.replicate (MaxScanTokenSize - 1) 'a' := by
  unfold longLine
  rw [← List.replicate_succ]
  rfl

theorem isBlank_longLine : isBlank longLine = false := by
  rw [longLine_eq_cons]
  unfold isBlank
  rw [TrimSpace_cons_of_not_space (by decide)]
  simp

/-! ## The flag `hasNext` -/

theorem fits_longBlank : fits longBlank = false := by
  rw [fits_false_iff]
  unfold longBlank
  rw [byteLen_replicate, show Char.utf8Size ' ' = 1 from by decide, Nat.mul_one]

theorem isSpace_of_mem_longBlank : ∀ c ∈ longBlank, isSpace c = true := by
  unfold longBlank
  intro c hc
  rw [List.eq_of_mem_replicate hc]
  decide

/-- Lines that agree after trimming and stand on the same side of the buffer's
limit give the same events and the same verdict on the limit. -/
theorem eventsFrom_tokens_congr {lines lines' : List GoString}
    (h : List.Forall₂ (fun a b => TrimSpace a = TrimSpace b ∧ fits a = fits b) lines lines') :
    (∀ event, eventsFrom event (tokens lines) = eventsFrom event (tokens lines')) ∧
      lines.all fits = lines'.all fits := by
  induction h with
  | nil => exact ⟨fun _ => rfl, rfl⟩
  | @cons a b l l' hab _ ih =>
    obtain ⟨ht, hf⟩ := hab
    refine ⟨?_, ?_⟩
    · intro event
      cases hb : fits b with
      | true =>
        rw [tokens_cons_fit _ (hf.trans hb), tokens_cons_fit _ hb, eventsFrom_cons,
          eventsFrom_cons, isBlank_congr ht, accumulate_congr ht, ih.1, ih.1, ih.1]
      | false =>
        rw [tokens_cons_long _ (hf.trans hb), tokens_cons_long _ hb]
    · rw [List.all_cons, List.all_cons, hf, ih.2]

/-- Blank lines of any length in front of the lines add no event: the events
decoded with them are an initial segment of the events decoded without them. -/
theorem eventsFrom_tokens_blanks_initial (after : List GoString) :
    ∀ (blanks : List GoString), (∀ b ∈ blanks, isBlank b = true) →
      ∀ event, hasContent event = false →
        ∃ more, eventsFrom event (tokens after) =
          eventsFrom event (tokens (blanks ++ after)) ++ more := by
  intro blanks
  induction blanks with
  | nil => intro _ event _; exact ⟨[], by simp⟩
  | cons bl tail ih =>
    intro hb event hc
    cases hf : fits bl with
    | false =>
      refine ⟨eventsFrom event (tokens after), ?_⟩
      rw [List.cons_append, tokens_cons_long _ hf]
      rfl
    | true =>
      rw [List.cons_append, tokens_cons_fit _ hf,
        eventsFrom_cons_skip _ (hb bl (List.mem_cons_self _ _)) hc]
      exact ih (fun b hbm => hb b (List.mem_cons_of_mem _ hbm)) event hc

/-- Initial segments of the events are kept behind a common beginning. -/
theorem eventsFrom_tokens_append_initial {xs ys : List GoString}
    (hx : ∀ event, ∃ more, eventsFrom event (tokens ys) = eventsFrom event (tokens xs) ++ more)
    (before : List GoString) :
    ∀ event, ∃ more, eventsFrom event (tokens (before ++ ys)) =
      eventsFrom event (tokens (before ++ xs)) ++ more := by
  induction before with
  | nil => exact hx
  | cons text tail ih =>
    intro event
    cases hf : fits text with
    | false =>
      refine ⟨[], ?_⟩
      rw [List.cons_append, List.cons_append, tokens_cons_long _ hf, tokens_cons_long _ hf]
      rfl
    | true =>
      rw [List.cons_append, List.cons_append, tokens_cons_fit _ hf, tokens_cons_fit _ hf]
      cases hbt : isBlank text with
      | false =>
        rw [eventsFrom_cons_line _ _ hbt, eventsFrom_cons_line _ _ hbt]
        exact ih _
      | true =>
        cases hc : hasContent event with
        | true =>
          rw [eventsFrom_cons_emit _ hbt hc, eventsFrom_cons_emit _ hbt hc]
          obtain ⟨more, hm⟩ := ih {}
          exact ⟨more, by rw [hm, List.cons_append]⟩
        | false =>
          rw [eventsFrom_cons_skip _ hbt hc, eventsFrom_cons_skip _ hbt hc]
          exact ih event

theorem isBlank_longBlank : isBlank longBlank = true :=
  isBlank_of_all_space isSpace_of_mem_longBlank

/-! ## Claims -/

/-- C1, as stated, fails at a line that does not fit the scanner's buffer: on the
clean input of the line `longLine` (65536 bytes), a blank line, `data: a` and a
blank line, the first `readEvent` returns `bufio.ErrTooLong` and no event, while the
frame `data: a` is terminated by a blank line and has content. -/
theorem C1_counterexample :
    readEvents (decoderOf (longLine :: ["".toList, "data: a".toList, "".toList])) =
      some ([], some ErrTooLong) ∧
    ((frames (longLine :: ["".toList, "data: a".toList, "".toList])).map frameEvent).filter
        hasContent =
      [{ ID := [], Event := [], Data := "a".toList, Retry := 0 }] := by
  refine ⟨readEvents_long_head none none fits_longLine _, ?_⟩
  have gen : ∀ x : GoString, isBlank x = false → accumulate {} x = {} →
      ((frames (x :: ["".toList, "data: a".toList, "".toList])).map frameEvent).filter
          hasContent =
        [{ ID := [], Event := [], Data := "a".toList, Retry := 0 }] := by
    intro x hx hacc
    have h0 : frames ["".toList, "data: a".toList, "".toList] = [[], ["data: a".toList]] := by
      decide
    rw [frames_cons_line _ hx, h0]
    have hfe : frameEvent [x] = {} := hacc
    simp only [List.map_cons, List.map_nil, hfe]
    decide
  exact gen longLine isBlank_longLine
    (accumulate_of_no_colon (not_mem_longLine (by decide)) {})

/-- C1, amended: for every finite list of input lines, each shorter than
`MaxScanTokenSize` (65536) bytes, ending in clean end-of-input, calling `readEvent`
repeatedly until it signals end-of-input returns, in the order of the frames,
exactly the events accumulated from the lines of each blank-line-terminated frame
whose accumulated id/event/data is not all empty, nothing for the frames whose
accumulated fields are all empty, and then `io.EOF`. -/
theorem C1_events_are_frames (lines : List GoString)
    (h : ∀ t ∈ lines, byteLen t < MaxScanTokenSize) :
    readEvents (decoderOf lines) =
      some (((frames lines).map frameEvent).filter hasContent, some GoError.EOF) := by
  rw [readEvents_decoderOf lines (all_fit_of_bound h), eventsFrom_empty_frames]

/-- C1, at a concrete input: two frames with content around one without. -/
theorem C1_events_are_frames_witness :
    readEvents (decoderOf ["id: 1".toList, "data: a".toList, "".toList, ": c".toList,
        "".toList, "data: b".toList, "".toList, "data: lost".toList]) =
      some (((frames ["id: 1".toList, "data: a".toList, "".toList, ": c".toList,
        "".toList, "data: b".toList, "".toList, "data: lost".toList]).map frameEvent).filter
          hasContent, some GoError.EOF) :=
  C1_events_are_frames ["id: 1".toList, "data: a".toList, "".toList, ": c".toList,
    "".toList, "data: b".toList, "".toList, "data: lost".toList] (by decide)

/-- C2: every event that `readEvent` returns has at least one of `ID`, `Event`,
`Data` non-empty; blank lines before any other line of the input, and blank lines
that directly follow a blank line, produce no event: with blank lines that fit the
scanner's buffer (less than `MaxScanTokenSize` bytes) the decoding is the same as
without them; an input of blank lines only, of any length, yields no event; and
with blank lines of any length the events decoded are an initial segment of the
events decoded without them. -/
theorem C2_events_have_content :
    (∀ (d d' : Decoder) (event : Event) (err : Option GoError),
      d.readEvent = ((some event, err), d') →
        event.ID ≠ [] ∨ event.Event ≠ [] ∨ event.Data ≠ []) ∧
    (∀ (r : Option Response) (err : Option GoError) (blanks after : List GoString),
      (∀ b ∈ blanks, isBlank b = true ∧ byteLen b < MaxScanTokenSize) →
        ∃ events e,
          readEvents { response := r, scanner := some { lines := blanks ++ after, err := err } }
            = some (events, some e) ∧
          readEvents { response := r, scanner := some { lines := after, err := err } }
            = some (events, some e)) ∧
    (∀ (r : Option Response) (err : Option GoError) (before : List GoString) (b : GoString)
      (blanks after : List GoString),
      isBlank b = true → (∀ b' ∈ blanks, isBlank b' = true ∧ byteLen b' < MaxScanTokenSize) →
        ∃ events e,
          readEvents { response := r,
                       scanner := some { lines := before ++ b :: (blanks ++ after), err := err } }
            = some (events, some e) ∧
          readEvents { response := r,
                       scanner := some { lines := before ++ b :: after, err := err } }
            = some (events, some e)) ∧
    (∀ (r : Option Response) (err : Option GoError) (blanks : List GoString),
      (∀ b ∈ blanks, isBlank b = true) →
        ∃ e, readEvents { response := r, scanner := some { lines := blanks, err := err } }
          = some ([], some e)) ∧
    (∀ (r : Option Response) (err : Option GoError) (blanks after : List GoString),
      (∀ b ∈ blanks, isBlank b = true) →
        ∃ events more e e',
          readEvents { response := r, scanner := some { lines := blanks ++ after, err := err } }
            = some (events, some e) ∧
          readEvents { response := r, scanner := some { lines := after, err := err } }
            = some (events ++ more, some e')) ∧
    (∀ (r : Option Response) (err : Option GoError) (before : List GoString) (b : GoString)
      (blanks after : List GoString),
      isBlank b = true → (∀ b' ∈ blanks, isBlank b' = true) →
        ∃ events more e e',
          readEvents { response := r,
                       scanner := some { lines := before ++ b :: (blanks ++ after), err := err } }
            = some (events, some e) ∧
          readEvents { response := r,
                       scanner := some { lines := before ++ b :: after, err := err } }
            = some (events ++ more, some e')) := by
  have hskip : ∀ (blanks after : List GoString),
      (∀ b ∈ blanks, isBlank b = true ∧ byteLen b < MaxScanTokenSize) →
      (∀ event, hasContent event = false →
        eventsFrom event (tokens (blanks ++ after)) = eventsFrom event (tokens after)) ∧
      (blanks ++ after).all fits = after.all fits := by
    intro blanks after hb
    have hfit : ∀ t ∈ blanks, fits t = true := fun t ht => (fits_iff t).2 (hb t ht).2
    refine ⟨fun event hc => ?_, ?_⟩
    · rw [tokens_append_of_all_fit hfit,
        eventsFrom_skip_blanks hc blanks _ (fun b hbm => (hb b hbm).1)]
    · rw [List.all_append, List.all_eq_true.2 hfit, Bool.true_and]
  refine ⟨?_, ?_, ?_, ?_, ?_, ?_⟩
  · intro d d' event err h
    have hc := (readEvent_hasContent h).1
    simp only [hasContent, decide_eq_true_eq] at hc
    tauto
  · intro r err blanks after hb
    obtain ⟨h1, h2⟩ := hskip blanks after hb
    refine ⟨eventsFrom {} (tokens after), scanError after err, ?_, readEvents_tokens r after err⟩
    rw [readEvents_tokens, h1 {} rfl]
    unfold scanError
    rw [h2]
  · intro r err before b blanks after hb hbs
    obtain ⟨h1, h2⟩ := hskip blanks after hbs
    refine readEvents_append_congr r err (fun ev => ?_) ?_ before
    · cases hf : fits b with
      | false => rw [tokens_cons_long _ hf, tokens_cons_long _ hf]
      | true =>
        rw [tokens_cons_fit _ hf, tokens_cons_fit _ hf]
        cases hc : hasContent ev with
        | true =>
          rw [eventsFrom_cons_emit _ hb hc, eventsFrom_cons_emit _ hb hc, h1 {} rfl]
        | false =>
          rw [eventsFrom_cons_skip _ hb hc, eventsFrom_cons_skip _ hb hc, h1 ev hc]
    · rw [List.all_cons, List.all_cons, h2]
  · intro r err blanks hb
    refine ⟨scanError blanks err, ?_⟩
    rw [readEvents_tokens]
    have h := @eventsFrom_skip_blanks {} rfl (tokens blanks) []
      (fun b hbm => hb b (mem_of_mem_tokens hbm))
    rw [List.append_nil] at h
    rw [h]
    rfl
  · intro r err blanks after hb
    obtain ⟨more, hm⟩ := eventsFrom_tokens_blanks_initial after blanks hb {} rfl
    refine ⟨_, more, _, scanError after err, readEvents_tokens r (blanks ++ after) err, ?_⟩
    rw [readEvents_tokens, hm]
  · intro r err before b blanks after hb hbs
    have hx : ∀ event, ∃ more, eventsFrom event (tokens (b :: after)) =
        eventsFrom event (tokens (b :: (blanks ++ after))) ++ more := by
      intro event
      cases hf : fits b with
      | false =>
        refine ⟨[], ?_⟩
        rw [tokens_cons_long _ hf, tokens_cons_long _ hf]
        rfl
      | true =>
        rw [tokens_cons_fit _ hf, tokens_cons_fit _ hf]
        cases hc : hasContent event with
        | true =>
          rw [eventsFrom_cons_emit _ hb hc, eventsFrom_cons_emit _ hb hc]
          obtain ⟨more, hm⟩ := eventsFrom_tokens_blanks_initial after blanks hbs {} rfl
          exact ⟨more, by rw [hm, List.cons_append]⟩
        | false =>
          rw [eventsFrom_cons_skip _ hb hc, eventsFrom_cons_skip _ hb hc]
          exact eventsFrom_tokens_blanks_initial after blanks hbs event hc
    obtain ⟨more, hm⟩ := eventsFrom_tokens_append_initial hx before {}
    refine ⟨_, more, _, scanError (before ++ b :: after) err,
      readEvents_tokens r (before ++ b :: (blanks ++ after)) err, ?_⟩
    rw [readEvents_tokens, hm]

/-- C2, at concrete inputs: the frame `data: a` is returned with its data, blank
lines before it or doubled after it change nothing, and behind the line `longBlank`
(65536 spaces) put in front of it no event is decoded. -/
theorem C2_events_have_content_witness :
    (({ ID := [], Event := [], Data := ['a'], Retry := 0 } : Event).ID ≠ [] ∨
      ({ ID := [], Event := [], Data := ['a'], Retry := 0 } : Event).Event ≠ [] ∨
      ({ ID := [], Event := [], Data := ['a'], Retry := 0 } : Event).Data ≠ []) ∧
    (∃ events e,
      readEvents { response := none,
                   scanner := some { lines := [[], [' ']] ++ [['d', 'a', 't', 'a', ':', 'a'], []],
                                     err := none } } = some (events, some e) ∧
      readEvents { response := none,
                   scanner := some { lines := [['d', 'a', 't', 'a', ':', 'a'], []],
                                     err := none } } = some (events, some e)) ∧
    (∃ events e,
      readEvents { response := none,
                   scanner := some { lines := [['d', 'a', 't', 'a', ':', 'a']] ++
                                       [] :: ([[' '], []] ++ [['i', 'd', ':', '1'], []]),
                                     err := none } } = some (events, some e) ∧
      readEvents { response := none,
                   scanner := some { lines := [['d', 'a', 't', 'a', ':', 'a']] ++
                                       [] :: [['i', 'd', ':', '1'], []],
                                     err := none } } = some (events, some e)) ∧
    (∃ e, readEvents { response := none,
                       scanner := some { lines := [[], [' ', '\t'], ['\r']], err := none } }
      = some ([], some e)) ∧
    (∃ events more e e',
      readEvents { response := none,
                   scanner := some { lines := [longBlank] ++ [['d', 'a', 't', 'a', ':', 'a'], []],
                                     err := none } } = some (events, some e) ∧
      readEvents { response := none,
                   scanner := some { lines := [['d', 'a', 't', 'a', ':', 'a'], []],
                                     err := none } } = some (events ++ more, some e')) :=
  ⟨C2_events_have_content.1 (decoderOf [['d', 'a', 't', 'a', ':', 'a'], []])
      { response := none, scanner := some { lines := [], err := none } }
      { ID := [], Event := [], Data := ['a'], Retry := 0 } none (by decide),
    C2_events_have_content.2.1 none none [[], [' ']] [['d', 'a', 't', 'a', ':', 'a'], []]
      (by decide),
    C2_events_have_content.2.2.1 none none [['d', 'a', 't', 'a', ':', 'a']] [] [[' '], []]
      [['i', 'd', ':', '1'], []] (by decide) (by decide),
    C2_events_have_content.2.2.2.1 none none [[], [' ', '\t'], ['\r']] (by decide),
    C2_events_have_content.2.2.2.2.1 none none [longBlank] [['d', 'a', 't', 'a', ':', 'a'], []]
      (fun b hb => by rw [List.mem_singleton.1 hb]; exact isBlank_longBlank)⟩

/-- C3, as stated, fails: the frame `data:`, `data: b` has the two data values
`""` and `"b"`, its event is returned with `Data == "b"`, and the values joined
by a newline are `"\nb"`. -/
theorem C3_counterexample :
    dataValues ["data:".toList, "data: b".toList] = ["".toList, "b".toList] ∧
    (Decoder.readEvent (decoderOf ["data:".toList, "data: b".toList, "".toList])).1 =
      (some { ID := [], Event := [], Data := "b".toList, Retry := 0 }, none) ∧
    "b".toList ≠ Join ["".toList, "b".toList] "\n".toList := by
  decide

/-- C3, amended: the `Data` of the event of every emitted frame is the values of
the frame's `data:` lines, in arrival order and without the empty values that come
before the first non-empty one, joined by a single newline. This holds for a
single call of `readEvent` that returns the event of the frame it starts at, and
for the events of a whole clean input whose lines are all shorter than
`MaxScanTokenSize` bytes, which match its frames with content one to one and in
order; and the data is all the values joined by a newline whenever the first value
is non-empty. -/
theorem C3_data_joined :
    (∀ lines : List GoString, (∀ t ∈ lines, byteLen t < MaxScanTokenSize) →
      ∃ events,
        readEvents (decoderOf lines) = some (events, some GoError.EOF) ∧
        List.Forall₂ (fun frame event => event.Data = joinedData frame)
          ((frames lines).filter (fun frame => hasContent (frameEvent frame))) events) ∧
    (∀ (r : Option Response) (err : Option GoError) (frame : List GoString) (b : GoString)
      (rest : List GoString) (event : Event),
      (∀ t ∈ frame, isBlank t = false) → isBlank b = true →
      Decoder.readEvent
          { response := r, scanner := some { lines := frame ++ b :: rest, err := err } } =
        ((some event, none),
          { response := r, scanner := some { lines := rest, err := err } }) →
      event.Data = joinedData frame) ∧
    (∀ (frame : List GoString) (v : GoString) (vs : List GoString),
      dataValues frame = v :: vs → v ≠ [] → joinedData frame = Join (v :: vs) ['\n']) := by
  refine ⟨?_, ?_, ?_⟩
  · intro lines hfit
    refine ⟨_, readEvents_frames lines (all_fit_of_bound hfit), ?_⟩
    rw [List.filter_map, List.forall₂_map_right_iff]
    have hf : (hasContent ∘ frameEvent) = fun frame => hasContent (frameEvent frame) := rfl
    rw [hf, List.forall₂_same]
    intro frame _
    exact frameEvent_Data frame
  · intro r err frame b rest event hframe hb hread
    rw [readEvent_frame hframe hb hread, frameEvent_Data]
  · intro frame v vs hv hne
    exact joinedData_of_ne hv hne

/-- C3, at a concrete input: the frame `data:`, `data: a`, `data:`, `data: b`,
whose data is `a`, an empty line, and `b`. -/
theorem C3_data_joined_witness :
    ({ ID := [], Event := [], Data := "a\n\nb".toList, Retry := 0 } : Event).Data =
      joinedData ["data:".toList, "data: a".toList, "data:".toList, "data: b".toList] ∧
    joinedData ["data: a".toList, "data:".toList, "data: b".toList] =
      Join ["a".toList, "".toList, "b".toList] ['\n'] ∧
    (∃ events,
      readEvents (decoderOf ["data:".toList, "data: a".toList, "".toList]) =
        some (events, some GoError.EOF) ∧
      List.Forall₂ (fun frame event => event.Data = joinedData frame)
        ((frames ["data:".toList, "data: a".toList, "".toList]).filter
          (fun frame => hasContent (frameEvent frame))) events) :=
  ⟨C3_data_joined.2.1 none none
      ["data:".toList, "data: a".toList, "data:".toList, "data: b".toList] []
      ["id: 7".toList] { ID := [], Event := [], Data := "a\n\nb".toList, Retry := 0 }
      (by decide) (by decide) (by decide),
    C3_data_joined.2.2 ["data: a".toList, "data:".toList, "data: b".toList]
      "a".toList ["".toList, "b".toList] (by decide) (by decide),
    C3_data_joined.1 ["data:".toList, "data: a".toList, "".toList] (by decide)⟩

/-- C4, as stated, fails at a line that does not fit the scanner's buffer: the
clean input of the single line `longLine` (65536 bytes, not blank) is an
unterminated frame, and the decoder signals the failure `bufio.ErrTooLong`, not
end-of-input. -/
theorem C4_counterexample :
    isBlank longLine = false ∧
    readEvents (decoderOf [longLine]) = some ([], some ErrTooLong) ∧
    ErrTooLong ≠ GoError.EOF :=
  ⟨isBlank_longLine, readEvents_long_head none none fits_longLine [], by decide⟩

/-- C4, amended: the lines after the last blank line of an input (the whole input
when it has no blank line) never appear in the output: repeated `readEvent` returns
the same events as on the input with those trailing lines removed; and when every
line is shorter than `MaxScanTokenSize` (65536) bytes the decoder then signals
end-of-input (`io.EOF`), not a failure. -/
theorem C4_trailing_frame_dropped :
    (∀ lines : List GoString,
      ∃ events e e',
        readEvents (decoderOf lines) = some (events, some e) ∧
        readEvents (decoderOf (dropTrailingFrame lines)) = some (events, some e')) ∧
    (∀ lines : List GoString, (∀ t ∈ lines, byteLen t < MaxScanTokenSize) →
      ∃ events,
        readEvents (decoderOf lines) = some (events, some GoError.EOF) ∧
        readEvents (decoderOf (dropTrailingFrame lines)) =
          some (events, some GoError.EOF)) := by
  have key : ∀ lines : List GoString,
      eventsFrom {} (tokens lines) = eventsFrom {} (tokens (dropTrailingFrame lines)) := by
    intro lines
    obtain ⟨tail, h1, h2⟩ := rdropWhile_append_rest (fun text => !isBlank text) lines
    have h3 : ∀ t ∈ tokens tail, isBlank t = false :=
      fun t ht => by simpa using h2 t (mem_of_mem_tokens ht)
    have h4 := @eventsFrom_tokens_append_congr tail []
      (fun ev => by rw [eventsFrom_unterminated (tokens tail) h3]; rfl)
      (dropTrailingFrame lines) {}
    rw [List.append_nil] at h4
    rw [← h4]
    conv_lhs => rw [h1]
    rfl
  refine ⟨?_, ?_⟩
  · intro lines
    exact ⟨_, _, _, by rw [decoderOf, readEvents_tokens, key lines],
      readEvents_tokens none _ none⟩
  · intro lines hfit
    have hall := all_fit_of_bound hfit
    obtain ⟨tail, h1, -⟩ := rdropWhile_append_rest (fun text => !isBlank text) lines
    have hall' : ∀ t ∈ dropTrailingFrame lines, fits t = true := fun t ht =>
      hall t (by rw [h1]; exact List.mem_append_left _ ht)
    refine ⟨eventsFrom {} (dropTrailingFrame lines), ?_, readEvents_decoderOf _ hall'⟩
    rw [readEvents_decoderOf lines hall]
    have h := key lines
    rw [tokens_of_all_fit hall, tokens_of_all_fit hall'] at h
    rw [h]

/-- C4, at a concrete input: one frame and two trailing lines. -/
theorem C4_trailing_frame_dropped_witness :
    ∃ events,
      readEvents (decoderOf ["data: a".toList, "".toList, "id: 2".toList,
        "data: b".toList]) = some (events, some GoError.EOF) ∧
      readEvents (decoderOf (dropTrailingFrame ["data: a".toList, "".toList, "id: 2".toList,
        "data: b".toList])) = some (events, some GoError.EOF) :=
  C4_trailing_frame_dropped.2
    ["data: a".toList, "".toList, "id: 2".toList, "data: b".toList] (by decide)

/-- C5, as stated, fails for a comment line that does not fit the scanner's
buffer: the line `:` followed by `longLine` is a comment; inserted in front of the
frame `data: a` it makes the decoding return no event and `bufio.ErrTooLong`, while
without it the decoding returns the event and `io.EOF`. -/
theorem C5_counterexample :
    isComment (':' :: longLine) = true ∧
    readEvents (decoderOf ([] ++ (':' :: longLine) :: ["data: a".toList, "".toList])) =
      some ([], some ErrTooLong) ∧
    readEvents (decoderOf ([] ++ ["data: a".toList, "".toList])) =
      some ([{ ID := [], Event := [], Data := "a".toList, Retry := 0 }], some GoError.EOF) := by
  refine ⟨by simp [isComment, List.dropWhile, show isSpace ':' = false from rfl], ?_,
    by decide⟩
  exact readEvents_long_head none none (fits_append_longLine [':']) _

/-- C5, amended: inserting a comment line (first non-whitespace character `:`) of
less than `MaxScanTokenSize` (65536) bytes at any position of any input changes
neither the events returned by repeated `readEvent` nor the error that ends the
decoding (end-of-input stays end-of-input). -/
theorem C5_comment_lines_ignored (r : Option Response) (err : Option GoError)
    (before after : List GoString) (comment : GoString)
    (h : isComment comment = true) (hlen : byteLen comment < MaxScanTokenSize) :
    ∃ events e,
      readEvents { response := r,
                   scanner := some { lines := before ++ comment :: after, err := err } }
        = some (events, some e) ∧
      readEvents { response := r, scanner := some { lines := before ++ after, err := err } }
        = some (events, some e) :=
  readEvents_insert_ignored r err ((fits_iff comment).2 hlen) (isBlank_of_isComment h)
    (accumulate_of_isComment h) before after

/-- C5, at a concrete input: a comment inside the frame `data: a`, `data: b`. -/
theorem C5_comment_lines_ignored_witness :
    isComment " : keep-alive".toList = true ∧
    ∃ events e,
      readEvents { response := none,
                   scanner := some { lines := ["data: a".toList] ++
                     " : keep-alive".toList :: ["data: b".toList, []], err := none } }
        = some (events, some e) ∧
      readEvents { response := none,
                   scanner := some { lines := ["data: a".toList] ++ ["data: b".toList, []],
                                     err := none } }
        = some (events, some e) :=
  ⟨by decide, C5_comment_lines_ignored none none ["data: a".toList] ["data: b".toList, []]
    " : keep-alive".toList (by decide) (by decide)⟩

/-- C6, as stated, fails for a value that makes the line too long for the
scanner's buffer: with the value `longLine` (65536 bytes) the line `retry:<value>`
in front of the frame `data: a` makes `readEvent` return the failure
`bufio.ErrTooLong` and no event, while without it the decoding returns the event
and `io.EOF`. -/
theorem C6_counterexample :
    readEvents (decoderOf ([] ++ (['r', 'e', 't', 'r', 'y', ':'] ++ longLine) ::
        ["data: a".toList, "".toList])) = some ([], some ErrTooLong) ∧
    readEvents (decoderOf ([] ++ ["data: a".toList, "".toList])) =
      some ([{ ID := [], Event := [], Data := "a".toList, Retry := 0 }], some GoError.EOF) ∧
    ErrTooLong ≠ GoError.EOF :=
  ⟨readEvents_long_head none none (fits_append_longLine ['r', 'e', 't', 'r', 'y', ':']) _,
    by decide, by decide⟩

/-- C6, amended: for every value that keeps the line `retry:<value>` shorter than
`MaxScanTokenSize` (65536) bytes, inserting the line at any position of any input
changes neither the events returned by repeated `readEvent` nor the error that ends
the decoding; on a clean input whose other lines are shorter than that too, the
decoding still ends with `io.EOF`, not a failure; and every event `readEvent`
returns has `Retry == 0`. -/
theorem C6_retry_lines_ignored :
    (∀ (r : Option Response) (err : Option GoError) (before after : List GoString)
      (value : GoString),
      byteLen (['r', 'e', 't', 'r', 'y', ':'] ++ value) < MaxScanTokenSize →
      ∃ events e,
        readEvents { response := r,
                     scanner := some { lines := before ++
                       (['r', 'e', 't', 'r', 'y', ':'] ++ value) :: after, err := err } }
          = some (events, some e) ∧
        readEvents { response := r, scanner := some { lines := before ++ after, err := err } }
          = some (events, some e)) ∧
    (∀ (before after : List GoString) (value : GoString),
      byteLen (['r', 'e', 't', 'r', 'y', ':'] ++ value) < MaxScanTokenSize →
      (∀ t ∈ before ++ after, byteLen t < MaxScanTokenSize) →
      ∃ events,
        readEvents (decoderOf (before ++ (['r', 'e', 't', 'r', 'y', ':'] ++ value) :: after))
          = some (events, some GoError.EOF)) ∧
    (∀ (d d' : Decoder) (event : Event) (err : Option GoError),
      d.readEvent = ((some event, err), d') → event.Retry = 0) := by
  have hn := fun value => fieldName_retry value
  have hb := fun value => isBlank_of_fieldName (hn value)
  have ha := fun value => accumulate_of_other_name (hn value) (by decide) (by decide)
    (by decide)
  refine ⟨?_, ?_, ?_⟩
  · intro r err before after value hlen
    exact readEvents_insert_ignored r err ((fits_iff _).2 hlen) (hb value) (ha value)
      before after
  · intro before after value hlen hfit
    refine ⟨_, readEvents_decoderOf _ ?_⟩
    intro t ht
    rcases List.mem_append.1 ht with h1 | h1
    · exact (fits_iff t).2 (hfit t (List.mem_append_left _ h1))
    · rcases List.mem_cons.1 h1 with rfl | h2
      · exact (fits_iff _).2 hlen
      · exact (fits_iff t).2 (hfit t (List.mem_append_right _ h2))
  · intro d d' event err h
    exact (readEvent_hasContent h).2

/-- C6, at a concrete input: a non-numeric `retry:` line inside a frame. -/
theorem C6_retry_lines_ignored_witness :
    (∃ events e,
      readEvents { response := none,
                   scanner := some { lines := ["data: a".toList] ++
                     (['r', 'e', 't', 'r', 'y', ':'] ++ " soon".toList) ::
                       ["data: b".toList, []], err := none } }
        = some (events, some e) ∧
      readEvents { response := none,
                   scanner := some { lines := ["data: a".toList] ++ ["data: b".toList, []],
                                     err := none } }
        = some (events, some e)) ∧
    (∃ events,
      readEvents (decoderOf (["data: a".toList] ++
          (['r', 'e', 't', 'r', 'y', ':'] ++ " soon".toList) :: ["data: b".toList, []]))
        = some (events, some GoError.EOF)) ∧
    ({ ID := [], Event := [], Data := "a".toList, Retry := 0 } : Event).Retry = 0 :=
  ⟨C6_retry_lines_ignored.1 none none ["data: a".toList] ["data: b".toList, []]
      " soon".toList (by decide),
    C6_retry_lines_ignored.2.1 ["data: a".toList] ["data: b".toList, []] " soon".toList
      (by decide) (by decide),
    C6_retry_lines_ignored.2.2 (decoderOf ["retry: 5".toList, "data: a".toList, []])
      { response := none, scanner := some { lines := [], err := none } }
      { ID := [], Event := [], Data := "a".toList, Retry := 0 } none (by decide)⟩

/-- C7, as stated, fails for a line that does not fit the scanner's buffer: the
line `longLine` (65536 bytes) is not blank and has no colon; inserted in front of
the frame `data: a` it makes the decoding return no event and `bufio.ErrTooLong`,
while without it the decoding returns the event. -/
theorem C7_counterexample :
    isBlank longLine = false ∧ ':' ∉ longLine ∧
    readEvents (decoderOf ([] ++ longLine :: ["data: a".toList, "".toList])) =
      some ([], some ErrTooLong) ∧
    readEvents (decoderOf ([] ++ ["data: a".toList, "".toList])) =
      some ([{ ID := [], Event := [], Data := "a".toList, Retry := 0 }], some GoError.EOF) :=
  ⟨isBlank_longLine, not_mem_longLine (by decide),
    readEvents_long_head none none fits_longLine _, by decide⟩

/-- C7, amended: inserting, at any position of any input, a line of less than
`MaxScanTokenSize` (65536) bytes that is non-empty after trimming and has no colon,
or that has a colon and a trimmed field name that is none of `data`, `event`, `id`,
`retry` (compared exactly), changes neither the events returned by repeated
`readEvent` nor the error that ends the decoding. -/
theorem C7_unknown_lines_ignored (r : Option Response) (err : Option GoError)
    (before after : List GoString) (text : GoString)
    (h : (isBlank text = false ∧ ':' ∉ text) ∨
      (∃ name, fieldName text = some name ∧ name ≠ ['d', 'a', 't', 'a'] ∧
        name ≠ ['e', 'v', 'e', 'n', 't'] ∧ name ≠ ['i', 'd'] ∧
        name ≠ ['r', 'e', 't', 'r', 'y']))
    (hlen : byteLen text < MaxScanTokenSize) :
    ∃ events e,
      readEvents { response := r,
                   scanner := some { lines := before ++ text :: after, err := err } }
        = some (events, some e) ∧
      readEvents { response := r, scanner := some { lines := before ++ after, err := err } }
        = some (events, some e) := by
  rcases h with ⟨hb, hc⟩ | ⟨name, hn, h1, h2, h3, -⟩
  · exact readEvents_insert_ignored r err ((fits_iff text).2 hlen) hb
      (accumulate_of_no_colon hc) before after
  · exact readEvents_insert_ignored r err ((fits_iff text).2 hlen) (isBlank_of_fieldName hn)
      (accumulate_of_other_name hn h1 h2 h3) before after

/-- C7, at a concrete input: the field name `Data` is not `data`. -/
theorem C7_unknown_lines_ignored_witness :
    fieldName "Data: x".toList = some "Data".toList ∧
    ∃ events e,
      readEvents { response := none,
                   scanner := some { lines := ["data: a".toList] ++
                     "Data: x".toList :: ["data: b".toList, []], err := none } }
        = some (events, some e) ∧
      readEvents { response := none,
                   scanner := some { lines := ["data: a".toList] ++ ["data: b".toList, []],
                                     err := none } }
        = some (events, some e) :=
  ⟨by decide, C7_unknown_lines_ignored none none ["data: a".toList] ["data: b".toList, []]
    "Data: x".toList (Or.inr ⟨"Data".toList, by decide, by decide, by decide, by decide,
      by decide⟩) (by decide)⟩

/-- C8: for a stream created with no initial error over a decoder, the values seen
through `Current` after each `Next` that returns true are the deserialized data of
the decoder's events, in frame order, for the longest run of leading events that
deserialize; the loop ends at the first event that does not, with `Err` the error
`failed to unmarshal event data` wrapping the deserializer's error (or, when all
events deserialize, with no error at clean end-of-input and the decoder's error
otherwise); afterwards every `Next` returns false, so no later frame is delivered. -/
theorem C8_stream_delivers_unmarshalled {T : Type}
    (unmarshal : GoString → Except GoError T) (zero : T) (d : Decoder) :
    ∃ events e s',
      readEvents d = some (events, some e) ∧
      collect unmarshal zero (NewStream (some d) none) =
        some ((deliver unmarshal events).1, s') ∧
      s'.Err =
        (match (deliver unmarshal events).2 with
         | some ue => some (GoError.wrapf "failed to unmarshal event data" ue)
         | none => if e = GoError.EOF then none else some e) ∧
      ∀ n, ((Stream.afterCalls unmarshal n s').Next unmarshal).1 = false := by
  have hfalse : ∀ s' : Stream T, s'.stopped →
      ∀ n, ((Stream.afterCalls unmarshal n s').Next unmarshal).1 = false :=
    fun s' h n => (Next_of_stopped unmarshal (afterCalls_of_stopped unmarshal n h).1).1
  cases d with
  | mk r scanner =>
    cases scanner with
    | none =>
      obtain ⟨s', h1, h2, h3⟩ := collect_scanner_none unmarshal zero r
      refine ⟨[], _, s', readEvents_scanner_none r, h1, ?_, hfalse s' h3⟩
      rw [Stream.Err, h2]
      simp [deliver]
    | some sc =>
      cases sc with
      | mk lines err =>
        obtain ⟨s', h1, h2, h3⟩ :=
          collectFuel_eq unmarshal zero r err (lines.length + 1) lines none true
            (Nat.lt_succ_self _)
        exact ⟨_, _, s', readEvents_tokens r lines err, h1, h2, hfalse s' h3⟩

/-- C9: once a call of `Next` has returned false, on any stream and for any
reason, every later call of `Next` returns false as well. -/
theorem C9_next_false_is_terminal {T : Type} (unmarshal : GoString → Except GoError T)
    (s : Stream T) (h : (s.Next unmarshal).1 = false) (n : Nat) :
    ((Stream.afterCalls unmarshal n (s.Next unmarshal).2).Next unmarshal).1 = false :=
  (Next_of_stopped unmarshal
    (afterCalls_of_stopped unmarshal n (stopped_of_Next_false unmarshal s h)).1).1

/-- C9, at a concrete input: the second frame does not deserialize, `Next` returns
false there, and three calls later it still does although a good frame follows. -/
theorem C9_next_false_is_terminal_witness :
    ((Stream.afterCalls unmarshalDigit 1
        (NewStream (some (decoderOf ["data: 1".toList, [], "data: x".toList, [],
          "data: 2".toList, []])) none)).Next unmarshalDigit).1 = false ∧
    ((Stream.afterCalls unmarshalDigit 3
        ((Stream.afterCalls unmarshalDigit 1
          (NewStream (some (decoderOf ["data: 1".toList, [], "data: x".toList, [],
            "data: 2".toList, []])) none)).Next unmarshalDigit).2).Next unmarshalDigit).1
      = false :=
  ⟨by decide, C9_next_false_is_terminal unmarshalDigit
    (Stream.afterCalls unmarshalDigit 1
      (NewStream (some (decoderOf ["data: 1".toList, [], "data: x".toList, [],
        "data: 2".toList, []])) none)) (by decide) 3⟩

/-- C10: on a stream that holds no error, a call of `Next` that meets clean
end-of-input returns false and leaves `Err` nil, also after any number of further
calls; a call that meets a read failure, a deserialization failure or a nil
decoder returns false and leaves `Err` non-nil, also after any number of further
calls. -/
theorem C10_err_after_stop {T : Type} (unmarshal : GoString → Except GoError T)
    (s : Stream T) (hs : s.err = none) :
    (∀ (d d' : Decoder) (o : Option Event),
      s.decoder = some d → d.readEvent = ((o, some GoError.EOF), d') →
        (s.Next unmarshal).1 = false ∧
          ∀ n, (Stream.afterCalls unmarshal n (s.Next unmarshal).2).Err = none) ∧
    (∀ (d d' : Decoder) (o : Option Event) (e : GoError),
      s.decoder = some d → d.readEvent = ((o, some e), d') → e ≠ GoError.EOF →
        (s.Next unmarshal).1 = false ∧
          ∀ n, (Stream.afterCalls unmarshal n (s.Next unmarshal).2).Err ≠ none) ∧
    (∀ (d d' : Decoder) (event : Event) (e : GoError),
      s.decoder = some d → d.readEvent = ((some event, none), d') →
        unmarshal event.Data = .error e →
        (s.Next unmarshal).1 = false ∧
          ∀ n, (Stream.afterCalls unmarshal n (s.Next unmarshal).2).Err ≠ none) ∧
    (s.decoder = none →
      (s.Next unmarshal).1 = false ∧
        ∀ n, (Stream.afterCalls unmarshal n (s.Next unmarshal).2).Err ≠ none) := by
  have key : ∀ N : Bool × Stream T, s.Next unmarshal = N → N.1 = false →
      N.1 = false ∧ ∀ n, (Stream.afterCalls unmarshal n N.2).Err = N.2.err := by
    intro N hN hf
    refine ⟨hf, fun n => ?_⟩
    have hst := stopped_of_Next_false unmarshal s (by rw [hN]; exact hf)
    rw [hN] at hst
    exact (afterCalls_of_stopped unmarshal n hst).2
  refine ⟨?_, ?_, ?_, ?_⟩
  · intro d d' o hd hr
    have hN := Next_of_eof unmarshal hs hd hr
    obtain ⟨h1, h2⟩ := key _ hN rfl
    rw [hN]
    exact ⟨h1, fun n => by rw [h2 n]; exact hs⟩
  · intro d d' o e hd hr hne
    have hN := Next_of_failure unmarshal hs hd hr hne
    obtain ⟨h1, h2⟩ := key _ hN rfl
    rw [hN]
    exact ⟨h1, fun n => by rw [h2 n]; simp⟩
  · intro d d' event e hd hr hu
    have hN := Next_of_unmarshal_error unmarshal hs hd hr hu
    obtain ⟨h1, h2⟩ := key _ hN rfl
    rw [hN]
    exact ⟨h1, fun n => by rw [h2 n]; simp⟩
  · intro hd
    have hN := Next_of_decoder_nil unmarshal hs hd
    obtain ⟨h1, h2⟩ := key _ hN rfl
    rw [hN]
    exact ⟨h1, fun n => by rw [h2 n]; simp⟩

/-- C10, at concrete inputs: an empty input ends cleanly, a frame that does not
deserialize and a nil decoder end with an error; two calls later nothing changed. -/
theorem C10_err_after_stop_witness :
    (Stream.afterCalls unmarshalDigit 2
      ((NewStream (some (decoderOf [])) none).Next unmarshalDigit).2).Err = none ∧
    (Stream.afterCalls unmarshalDigit 2
      ((NewStream (some (decoderOf ["data: x".toList, []])) none).Next unmarshalDigit).2).Err
        ≠ none ∧
    (Stream.afterCalls unmarshalDigit 2
      ((NewStream none none).Next unmarshalDigit).2).Err ≠ none :=
  ⟨((C10_err_after_stop unmarshalDigit (NewStream (some (decoderOf [])) none) rfl).1
      (decoderOf []) (decoderOf []) none rfl (by decide)).2 2,
    ((C10_err_after_stop unmarshalDigit
      (NewStream (some (decoderOf ["data: x".toList, []])) none) rfl).2.2.1
      (decoderOf ["data: x".toList, []]) (decoderOf [])
      { ID := [], Event := [], Data := ['x'], Retry := 0 }
      (GoError.errorf "invalid character") rfl (by decide) rfl).2 2,
    ((C10_err_after_stop unmarshalDigit (NewStream none none) rfl).2.2.2 rfl).2 2⟩

/-- C11: `Current` returns the zero value of `T` on a new stream; calls of `Next`
that return false leave the value returned by `Current` unchanged, so it is the
zero value as long as no call has returned true; and after a call of `Next` that
returns true `Current` returns the value deserialized by that call. -/
theorem C11_current_value {T : Type} (unmarshal : GoString → Except GoError T) (zero : T) :
    (∀ (d : Option Decoder) (e : Option GoError),
      (NewStream d e : Stream T).Current zero = zero) ∧
    (∀ (s : Stream T) (n : Nat),
      (∀ k, k < n → ((Stream.afterCalls unmarshal k s).Next unmarshal).1 = false) →
        (Stream.afterCalls unmarshal n s).Current zero = s.Current zero) ∧
    (∀ s : Stream T, (s.Next unmarshal).1 = true →
      ∃ d d' event value, s.decoder = some d ∧ d.readEvent = ((some event, none), d') ∧
        unmarshal event.Data = .ok value ∧ (s.Next unmarshal).2.Current zero = value) := by
  refine ⟨fun d e => rfl, ?_, ?_⟩
  · intro s n h
    unfold Stream.Current
    rw [afterCalls_false_current unmarshal n s h]
  · intro s h
    obtain ⟨d, d', event, value, -, hd, hr, hu, hN⟩ := Next_true_current unmarshal s h
    exact ⟨d, d', event, value, hd, hr, hu, by rw [hN]; rfl⟩

/-- C11, at concrete inputs: on an empty input `Current` is still the zero value
after three calls of `Next`; after the frame `data: 1` it is one, and stays one
through the two calls that follow the end of the input. -/
theorem C11_current_value_witness :
    (Stream.afterCalls unmarshalDigit 3 (NewStream (some (decoderOf [])) none)).Current 0
      = (NewStream (some (decoderOf [])) none : Stream Nat).Current 0 ∧
    (Stream.afterCalls unmarshalDigit 2
      ((NewStream (some (decoderOf ["data: 1".toList, []])) none).Next unmarshalDigit).2).Current 0
      = ((NewStream (some (decoderOf ["data: 1".toList, []])) none).Next
          unmarshalDigit).2.Current 0 ∧
    (∃ d d' event value,
      (NewStream (some (decoderOf ["data: 1".toList, []])) none : Stream Nat).decoder = some d ∧
      d.readEvent = ((some event, none), d') ∧ unmarshalDigit event.Data = .ok value ∧
      ((NewStream (some (decoderOf ["data: 1".toList, []])) none).Next
        unmarshalDigit).2.Current 0 = value) :=
  ⟨(C11_current_value unmarshalDigit 0).2.1 (NewStream (some (decoderOf [])) none) 3
      (by decide),
    (C11_current_value unmarshalDigit 0).2.1
      ((NewStream (some (decoderOf ["data: 1".toList, []])) none).Next unmarshalDigit).2 2
      (by decide),
    (C11_current_value unmarshalDigit 0).2.2
      (NewStream (some (decoderOf ["data: 1".toList, []])) none) (by decide)⟩

/-- C12, as stated, fails at a line that does not fit the scanner's buffer: when the
source yields `longLine` (65536 bytes), a blank line, the frame `data: 1` with its
blank line, and then the read failure `unexpected EOF`, `readEvent` returns
`bufio.ErrTooLong` instead of that failure and no event, although the frame
`data: 1` is complete. -/
theorem C12_counterexample :
    readEvents { response := none,
                 scanner := some { lines := longLine :: ["".toList, "data: 1".toList, "".toList],
                                   err := some (GoError.errorf "unexpected EOF") } } =
      some ([], some ErrTooLong) ∧
    ErrTooLong ≠ GoError.errorf "unexpected EOF" ∧
    ((frames (longLine :: ["".toList, "data: 1".toList, "".toList])).map frameEvent).filter
        hasContent =
      [{ ID := [], Event := [], Data := "1".toList, Retry := 0 }] := by
  refine ⟨readEvents_long_head none _ fits_longLine _, by decide, ?_⟩
  rw [← eventsFrom_empty_frames, eventsFrom_cons_line _ _ isBlank_longLine,
    accumulate_of_no_colon (not_mem_longLine (by decide))]
  decide

/-- C12, amended: when the source yields lines, each shorter than `MaxScanTokenSize`
(65536) bytes, and then a read failure `e` other than end-of-input, repeated
`readEvent` returns the events of the complete frames among those lines (the same
as on a clean end, nothing of a frame left unterminated) and then `e` itself; a
call of `Next` that meets the failure returns false with `Err` exactly `e`; and so
the consumer loop over such a source, when every event deserializes, ends with
`Err` exactly `e`. -/
theorem C12_read_failure_surfaced {T : Type} (unmarshal : GoString → Except GoError T)
    (zero : T) :
    (∀ (r : Option Response) (lines : List GoString) (e : GoError), e ≠ GoError.EOF →
      (∀ t ∈ lines, byteLen t < MaxScanTokenSize) →
      readEvents (decoderOf lines) =
        some (((frames lines).map frameEvent).filter hasContent, some GoError.EOF) ∧
      readEvents { response := r, scanner := some { lines := lines, err := some e } } =
        some (((frames lines).map frameEvent).filter hasContent, some e)) ∧
    (∀ (s : Stream T) (d d' : Decoder) (o : Option Event) (e : GoError),
      s.err = none → s.decoder = some d → d.readEvent = ((o, some e), d') →
      e ≠ GoError.EOF →
        (s.Next unmarshal).1 = false ∧ (s.Next unmarshal).2.Err = some e) ∧
    (∀ (r : Option Response) (lines : List GoString) (e : GoError), e ≠ GoError.EOF →
      (∀ t ∈ lines, byteLen t < MaxScanTokenSize) →
      (deliver unmarshal (((frames lines).map frameEvent).filter hasContent)).2 = none →
      ∃ s',
        collect unmarshal zero
          (NewStream (some { response := r, scanner := some { lines := lines, err := some e } })
            none) =
          some ((deliver unmarshal (((frames lines).map frameEvent).filter hasContent)).1, s') ∧
        s'.Err = some e) := by
  refine ⟨?_, ?_, ?_⟩
  · intro r lines e he hfit
    have hall := all_fit_of_bound hfit
    refine ⟨readEvents_frames lines hall, ?_⟩
    rw [readEvents_eq r lines (some e) hall, eventsFrom_empty_frames, finalError_of_ne he]
  · intro s d d' o e hs hd hr he
    rw [Next_of_failure unmarshal hs hd hr he]
    exact ⟨rfl, rfl⟩
  · intro r lines e he hfit hdel
    have hall := all_fit_of_bound hfit
    obtain ⟨s', h1, h2, -⟩ :=
      collectFuel_eq unmarshal zero r (some e) (lines.length + 1) lines none true
        (Nat.lt_succ_self _)
    rw [tokens_of_all_fit hall, eventsFrom_empty_frames] at h1 h2
    refine ⟨s', h1, ?_⟩
    rw [Stream.Err, h2, hdel, scanError_of_all_fit (some e) hall, finalError_of_ne he]
    simp [he]

/-- C12, at a concrete input: one complete frame, the beginning of a second one,
then the read failure `unexpected EOF`. -/
theorem C12_read_failure_surfaced_witness :
    readEvents { response := none,
                 scanner := some { lines := ["data: 1".toList, [], "data: 2".toList],
                                   err := some (GoError.errorf "unexpected EOF") } } =
      some (((frames ["data: 1".toList, [], "data: 2".toList]).map frameEvent).filter
        hasContent, some (GoError.errorf "unexpected EOF")) ∧
    ((Stream.afterCalls unmarshalDigit 1 (NewStream (some
        { response := none,
          scanner := some { lines := ["data: 1".toList, [], "data: 2".toList],
                            err := some (GoError.errorf "unexpected EOF") } })
        none)).Next unmarshalDigit).2.Err = some (GoError.errorf "unexpected EOF") ∧
    (∃ s',
      collect unmarshalDigit 0
        (NewStream (some
          { response := none,
            scanner := some { lines := ["data: 1".toList, [], "data: 2".toList],
                              err := some (GoError.errorf "unexpected EOF") } }) none) =
        some ((deliver unmarshalDigit
          (((frames ["data: 1".toList, [], "data: 2".toList]).map frameEvent).filter
            hasContent)).1, s') ∧
      s'.Err = some (GoError.errorf "unexpected EOF")) :=
  ⟨((C12_read_failure_surfaced unmarshalDigit 0).1 none
      ["data: 1".toList, [], "data: 2".toList] (GoError.errorf "unexpected EOF")
      (by decide) (by decide)).2,
    ((C12_read_failure_surfaced unmarshalDigit 0).2.1
      (Stream.afterCalls unmarshalDigit 1 (NewStream (some
        { response := none,
          scanner := some { lines := ["data: 1".toList, [], "data: 2".toList],
                            err := some (GoError.errorf "unexpected EOF") } }) none))
      { response := none,
        scanner := some { lines := ["data: 2".toList],
                          err := some (GoError.errorf "unexpected EOF") } }
      { response := none,
        scanner := some { lines := [], err := some (GoError.errorf "unexpected EOF") } }
      none (GoError.errorf "unexpected EOF") (by decide) (by decide) (by decide)
      (by decide)).2,
    (C12_read_failure_surfaced unmarshalDigit 0).2.2 none
      ["data: 1".toList, [], "data: 2".toList] (GoError.errorf "unexpected EOF")
      (by decide) (by decide) (by decide)⟩

/-- C13: `NewDecoder` on a nil response returns nil; on a stream that holds no
error and has no decoder, `Next` returns false, `Err` is afterwards the error with
message `decoder is nil`, and `Current` returns what it returned before, which on
the stream made by `NewStream` is the zero value. -/
theorem C13_nil_decoder {T : Type} (unmarshal : GoString → Except GoError T) (zero : T) :
    NewDecoder none = none ∧
    (∀ s : Stream T, s.err = none → s.decoder = none →
      (s.Next unmarshal).1 = false ∧
      (s.Next unmarshal).2.Err = some (GoError.errorf "decoder is nil") ∧
      (GoError.errorf "decoder is nil").Error = "decoder is nil" ∧
      (s.Next unmarshal).2.Current zero = s.Current zero) ∧
    ((NewStream (NewDecoder none) none : Stream T).Next unmarshal).1 = false ∧
    ((NewStream (NewDecoder none) none : Stream T).Next unmarshal).2.Err =
      some (GoError.errorf "decoder is nil") ∧
    ((NewStream (NewDecoder none) none : Stream T).Next unmarshal).2.Current zero = zero := by
  refine ⟨rfl, ?_, rfl, rfl, rfl⟩
  intro s hs hd
  rw [Next_of_decoder_nil unmarshal hs hd]
  exact ⟨rfl, rfl, rfl, rfl⟩

/-- C13, at a concrete stream: no error, no decoder, a value already stored. -/
theorem C13_nil_decoder_witness :
    (({ decoder := none, err := none, current := some 5, hasNext := true } :
        Stream Nat).Next unmarshalDigit).1 = false ∧
    (({ decoder := none, err := none, current := some 5, hasNext := true } :
        Stream Nat).Next unmarshalDigit).2.Err = some (GoError.errorf "decoder is nil") ∧
    (GoError.errorf "decoder is nil").Error = "decoder is nil" ∧
    (({ decoder := none, err := none, current := some 5, hasNext := true } :
        Stream Nat).Next unmarshalDigit).2.Current 0 =
      ({ decoder := none, err := none, current := some 5, hasNext := true } :
        Stream Nat).Current 0 :=
  (C13_nil_decoder unmarshalDigit 0).2.1
    { decoder := none, err := none, current := some 5, hasNext := true } rfl rfl

/-- C14, as stated, fails for a value that is empty after trimming, and for a line
that does not fit the scanner's buffer: the frame `data:` followed by a blank line
yields no event, `readEvent` runs on to the end of the input and returns `io.EOF`;
and the frame `data:` with the value `longLine` (65536 bytes) followed by a blank
line yields no event either, `readEvent` returns `bufio.ErrTooLong`. -/
theorem C14_counterexample :
    (Decoder.readEvent (decoderOf ["data:".toList, "".toList])).1 =
      (none, some GoError.EOF) ∧
    (Decoder.readEvent (decoderOf [("data:".toList ++ longLine), "".toList])).1 =
      (none, some ErrTooLong) := by
  refine ⟨by decide, ?_⟩
  have hs : scanLoop {} (Scanner.mk [("data:".toList ++ longLine), "".toList] none).err
      (Scanner.mk [("data:".toList ++ longLine), "".toList] none).lines =
        (none, { lines := [], err := some ErrTooLong }) :=
    scanLoop_cons_long {} none _ (fits_append_longLine _)
  show (Decoder.readEvent { response := none, scanner := some (Scanner.mk _ none) }).1 = _
  rw [readEvent_of_none hs, finalError_ErrTooLong]

/-- C14, amended: `readEvent` splits a line shorter than `MaxScanTokenSize` (65536)
bytes at its first colon only: for such a line `name:value` with no colon in
`name`, the trimmed `name` selects the field and the trimmed `value`, later colons
included, is the field value. In particular, for each of the names `data`,
`event`, `id`, with any white space before and after the name, and for every value
`v` that is not empty after trimming, the frame of the single line `name:v`
followed by a blank line, both shorter than 65536 bytes, yields the event whose
corresponding field is `v` trimmed and whose other fields are empty. -/
theorem C14_split_at_first_colon :
    (∀ (event : Event) (err : Option GoError) (name value : GoString)
      (rest : List GoString), ':' ∉ name →
      byteLen (name ++ ':' :: value) < MaxScanTokenSize →
      scanLoop event err ((name ++ ':' :: value) :: rest) =
        scanLoop
          (if TrimSpace name = ['d', 'a', 't', 'a'] then
            { event with
              Data := (if event.Data ≠ [] then event.Data ++ ['\n'] else event.Data) ++
                TrimSpace value }
          else if TrimSpace name = ['e', 'v', 'e', 'n', 't'] then
            { event with Event := TrimSpace value }
          else if TrimSpace name = ['i', 'd'] then { event with ID := TrimSpace value }
          else event) err rest) ∧
    (∀ (r : Option Response) (err : Option GoError) (l m v b : GoString)
      (rest : List GoString),
      (∀ c ∈ l, isSpace c = true) → (∀ c ∈ m, isSpace c = true) → TrimSpace v ≠ [] →
      isBlank b = true → byteLen b < MaxScanTokenSize →
      (byteLen (l ++ ['d', 'a', 't', 'a'] ++ m ++ ':' :: v) < MaxScanTokenSize →
        Decoder.readEvent
            { response := r,
              scanner := some { lines := (l ++ ['d', 'a', 't', 'a'] ++ m ++ ':' :: v) ::
                                  b :: rest, err := err } } =
          ((some { ID := [], Event := [], Data := TrimSpace v, Retry := 0 }, none),
            { response := r, scanner := some { lines := rest, err := err } })) ∧
      (byteLen (l ++ ['e', 'v', 'e', 'n', 't'] ++ m ++ ':' :: v) < MaxScanTokenSize →
        Decoder.readEvent
            { response := r,
              scanner := some { lines := (l ++ ['e', 'v', 'e', 'n', 't'] ++ m ++ ':' :: v) ::
                                  b :: rest, err := err } } =
          ((some { ID := [], Event := TrimSpace v, Data := [], Retry := 0 }, none),
            { response := r, scanner := some { lines := rest, err := err } })) ∧
      (byteLen (l ++ ['i', 'd'] ++ m ++ ':' :: v) < MaxScanTokenSize →
        Decoder.readEvent
            { response := r,
              scanner := some { lines := (l ++ ['i', 'd'] ++ m ++ ':' :: v) :: b :: rest,
                                err := err } } =
          ((some { ID := TrimSpace v, Event := [], Data := [], Retry := 0 }, none),
            { response := r, scanner := some { lines := rest, err := err } }))) := by
  refine ⟨?_, ?_⟩
  · intro event err name value rest h hlen
    exact scanLoop_field_line event err h value rest ((fits_iff _).2 hlen)
  · intro r err l m v b rest hl hm hv hb hlb
    have hfb := (fits_iff b).2 hlb
    refine ⟨?_, ?_, ?_⟩
    · intro hlen
      refine readEvent_one_line hb hfb ?_ (by simp [hasContent, hv])
      rw [scanLoop_padded_name {} err hl hm (by decide) (by rfl) v _ ((fits_iff _).2 hlen)]
      rfl
    · intro hlen
      refine readEvent_one_line hb hfb ?_ (by simp [hasContent, hv])
      rw [scanLoop_padded_name {} err hl hm (by decide) (by rfl) v _ ((fits_iff _).2 hlen)]
      rfl
    · intro hlen
      refine readEvent_one_line hb hfb ?_ (by simp [hasContent, hv])
      rw [scanLoop_padded_name {} err hl hm (by decide) (by rfl) v _ ((fits_iff _).2 hlen)]
      rfl

/-- C14, at concrete inputs: the value `a:b` keeps its colon, and the data of the
line `data:{"x":1}` is the value as it is. -/
theorem C14_split_at_first_colon_witness :
    scanLoop {} none ((" event ".toList ++ ':' :: " a:b ".toList) :: [[]]) =
      (some { ID := [], Event := "a:b".toList, Data := [], Retry := 0 },
        { lines := [], err := none }) ∧
    Decoder.readEvent
        { response := none,
          scanner := some { lines := ([] ++ ['d', 'a', 't', 'a'] ++ [] ++
                              ':' :: "\x7b\"x\":1\x7d".toList) :: [] :: [],
                            err := none } } =
      ((some { ID := [], Event := [], Data := TrimSpace "\x7b\"x\":1\x7d".toList, Retry := 0 },
          none),
        { response := none, scanner := some { lines := [], err := none } }) :=
  ⟨(C14_split_at_first_colon.1 {} none " event ".toList " a:b ".toList [[]] (by decide)
      (by decide)).trans (by decide),
    (C14_split_at_first_colon.2 none none [] [] "\x7b\"x\":1\x7d".toList [] []
      (by decide) (by decide) (by decide) (by decide) (by decide)).1 (by decide)⟩

/-- C16: when `readEvent` returns the event of a frame whose `data:` lines have the
values `v1..vn`, `n ≥ 1`, all non-empty and without a newline, the event's `Data`
is the values joined by a newline, and splitting `Data` at the newlines gives back
exactly `v1..vn`; such a frame is so returned when its lines and its blank line
are shorter than `MaxScanTokenSize` (65536) bytes; the same holds for the events of
a whole input of such lines, which match its frames with content one to one and in
order; and on a `data:` line the scanner delivers the loop puts the separator
before the appended value exactly when the accumulated data is non-empty. -/
theorem C16_data_join_split :
    (∀ (r : Option Response) (err e : Option GoError) (frame : List GoString)
      (b : GoString) (rest : List GoString) (event : Event) (v : GoString)
      (vs : List GoString),
      (∀ t ∈ frame, isBlank t = false) → isBlank b = true →
      Decoder.readEvent
          { response := r, scanner := some { lines := frame ++ b :: rest, err := err } } =
        ((some event, e), { response := r, scanner := some { lines := rest, err := err } }) →
      dataValues frame = v :: vs → (∀ w ∈ v :: vs, w ≠ [] ∧ '\n' ∉ w) →
      event.Data = Join (v :: vs) ['\n'] ∧ Split event.Data '\n' = v :: vs) ∧
    (∀ (r : Option Response) (err : Option GoError) (frame : List GoString) (b : GoString)
      (rest : List GoString) (v : GoString) (vs : List GoString),
      (∀ t ∈ frame, isBlank t = false) → isBlank b = true →
      (∀ t ∈ frame, byteLen t < MaxScanTokenSize) → byteLen b < MaxScanTokenSize →
      dataValues frame = v :: vs → (∀ w ∈ v :: vs, w ≠ [] ∧ '\n' ∉ w) →
      ∃ event,
        Decoder.readEvent
            { response := r, scanner := some { lines := frame ++ b :: rest, err := err } } =
          ((some event, none),
            { response := r, scanner := some { lines := rest, err := err } }) ∧
        event.Data = Join (v :: vs) ['\n'] ∧ Split event.Data '\n' = v :: vs) ∧
    (∀ lines : List GoString, (∀ t ∈ lines, byteLen t < MaxScanTokenSize) →
      ∃ events,
        readEvents (decoderOf lines) = some (events, some GoError.EOF) ∧
        List.Forall₂
          (fun frame event =>
            ∀ v vs, dataValues frame = v :: vs → (∀ w ∈ v :: vs, w ≠ [] ∧ '\n' ∉ w) →
              event.Data = Join (v :: vs) ['\n'] ∧ Split event.Data '\n' = v :: vs)
          ((frames lines).filter (fun frame => hasContent (frameEvent frame))) events) ∧
    (∀ (event : Event) (err : Option GoError) (text value : GoString)
      (rest : List GoString),
      dataValue text = some value → byteLen text < MaxScanTokenSize →
      scanLoop event err (text :: rest) =
        scanLoop
          { event with
            Data := if event.Data = [] then value else event.Data ++ ['\n'] ++ value }
          err rest) := by
  have key : ∀ (frame : List GoString) (v : GoString) (vs : List GoString),
      dataValues frame = v :: vs → (∀ w ∈ v :: vs, w ≠ [] ∧ '\n' ∉ w) →
      (frameEvent frame).Data = Join (v :: vs) ['\n'] ∧
        Split (frameEvent frame).Data '\n' = v :: vs := by
    intro frame v vs hv hall
    have hd : (frameEvent frame).Data = Join (v :: vs) ['\n'] := by
      rw [frameEvent_Data, joinedData_of_ne hv (hall v (List.mem_cons_self _ _)).1]
    exact ⟨hd, by rw [hd]; exact Split_Join v vs (fun w hw => (hall w hw).2)⟩
  refine ⟨?_, ?_, ?_, ?_⟩
  · intro r err e frame b rest event v vs hframe hb hread hv hall
    rw [readEvent_frame hframe hb hread]
    exact key frame v vs hv hall
  · intro r err frame b rest v vs hframe hb hfit hfb hv hall
    obtain ⟨hd, hsplit⟩ := key frame v vs hv hall
    have hc : hasContent (frameEvent frame) = true := by
      have hne := Join_ne_nil (hall v (List.mem_cons_self _ _)).1 vs ['\n']
      rw [← hd] at hne
      simp [hasContent, hne]
    exact ⟨frameEvent frame,
      readEvent_frame_emit r err rest hframe hb (all_fit_of_bound hfit) ((fits_iff b).2 hfb) hc,
      hd, hsplit⟩
  · intro lines hfit
    refine ⟨_, readEvents_frames lines (all_fit_of_bound hfit), ?_⟩
    rw [List.filter_map, List.forall₂_map_right_iff]
    have hf : (hasContent ∘ frameEvent) = fun frame => hasContent (frameEvent frame) := rfl
    rw [hf, List.forall₂_same]
    intro frame _
    exact key frame
  · intro event err text value rest h hlen
    exact scanLoop_data_line event err h rest ((fits_iff text).2 hlen)

/-- C16, at a concrete input: the frame `data: a`, `id: 1`, `data: b c` is
returned with the data `a`, newline, `b c`; the events of the whole input match its
frames; and the loop on the line `data: b c` behind the data `a`. -/
theorem C16_data_join_split_witness :
    (∃ event,
      Decoder.readEvent
          { response := none,
            scanner := some { lines := ["data: a".toList, "id: 1".toList, "data: b c".toList] ++
                                [] :: ["data: d".toList], err := none } } =
        ((some event, none),
          { response := none, scanner := some { lines := ["data: d".toList], err := none } }) ∧
      event.Data = Join ("a".toList :: ["b c".toList]) ['\n'] ∧
      Split event.Data '\n' = "a".toList :: ["b c".toList]) ∧
    (∃ events,
      readEvents (decoderOf ["data: a".toList, "data: b c".toList, [], "data: d".toList, []]) =
        some (events, some GoError.EOF) ∧
      List.Forall₂
        (fun frame event =>
          ∀ v vs, dataValues frame = v :: vs → (∀ w ∈ v :: vs, w ≠ [] ∧ '\n' ∉ w) →
            event.Data = Join (v :: vs) ['\n'] ∧ Split event.Data '\n' = v :: vs)
        ((frames ["data: a".toList, "data: b c".toList, [], "data: d".toList, []]).filter
          (fun frame => hasContent (frameEvent frame))) events) ∧
    scanLoop { ID := [], Event := [], Data := "a".toList, Retry := 0 } none
        ("data: b c".toList :: [[]]) =
      scanLoop
        { ({ ID := [], Event := [], Data := "a".toList, Retry := 0 } : Event) with
          Data := if ({ ID := [], Event := [], Data := "a".toList, Retry := 0 } : Event).Data = []
            then "b c".toList
            else ({ ID := [], Event := [], Data := "a".toList, Retry := 0 } : Event).Data ++
              ['\n'] ++ "b c".toList }
        none [[]] :=
  ⟨C16_data_join_split.2.1 none none ["data: a".toList, "id: 1".toList, "data: b c".toList] []
      ["data: d".toList] "a".toList ["b c".toList] (by decide) (by decide) (by decide)
      (by decide) (by decide) (by decide),
    C16_data_join_split.2.2.1 ["data: a".toList, "data: b c".toList, [], "data: d".toList, []]
      (by decide),
    C16_data_join_split.2.2.2 { ID := [], Event := [], Data := "a".toList, Retry := 0 } none
      "data: b c".toList "b c".toList [[]] (by decide) (by decide)⟩

/-- C17: the event `readEvent` returns for a frame has as `Event` the trimmed
value of the frame's last `event:` line and as `ID` the trimmed value of its last
`id:` line, empty when the frame has no such line, whatever earlier `event:` and
`id:` lines the frame has; and in the events of a whole input whose lines are
shorter than `MaxScanTokenSize` (65536) bytes, which match its frames with content
one to one and in order, each event has these values of its own frame, whatever
the frames before it held. -/
theorem C17_last_write_wins :
    (∀ (r : Option Response) (err : Option GoError) (frame : List GoString) (b : GoString)
      (rest : List GoString) (event : Event),
      (∀ t ∈ frame, isBlank t = false) → isBlank b = true →
      Decoder.readEvent
          { response := r, scanner := some { lines := frame ++ b :: rest, err := err } } =
        ((some event, none),
          { response := r, scanner := some { lines := rest, err := err } }) →
      event.Event = lastValue ['e', 'v', 'e', 'n', 't'] frame ∧
        event.ID = lastValue ['i', 'd'] frame) ∧
    (∀ lines : List GoString, (∀ t ∈ lines, byteLen t < MaxScanTokenSize) →
      ∃ events,
        readEvents (decoderOf lines) = some (events, some GoError.EOF) ∧
        List.Forall₂
          (fun frame event =>
            event.Event = lastValue ['e', 'v', 'e', 'n', 't'] frame ∧
              event.ID = lastValue ['i', 'd'] frame)
          ((frames lines).filter (fun frame => hasContent (frameEvent frame))) events) := by
  refine ⟨?_, ?_⟩
  · intro r err frame b rest event hframe hb hread
    rw [readEvent_frame hframe hb hread]
    exact frameEvent_Event_ID frame
  · intro lines hfit
    refine ⟨_, readEvents_frames lines (all_fit_of_bound hfit), ?_⟩
    rw [List.filter_map, List.forall₂_map_right_iff]
    have hf : (hasContent ∘ frameEvent) = fun frame => hasContent (frameEvent frame) := rfl
    rw [hf, List.forall₂_same]
    intro frame _
    exact frameEvent_Event_ID frame

/-- C17, at a concrete input: a frame with two `event:` lines and two `id:` lines,
the last `id:` line with an empty value; and the events of an input of two frames. -/
theorem C17_last_write_wins_witness :
    (({ ID := [], Event := "b".toList, Data := "x".toList, Retry := 0 } : Event).Event =
        lastValue ['e', 'v', 'e', 'n', 't']
          ["event: a".toList, "id: 1".toList, "data: x".toList, "event: b".toList,
            "id:".toList] ∧
      ({ ID := [], Event := "b".toList, Data := "x".toList, Retry := 0 } : Event).ID =
        lastValue ['i', 'd']
          ["event: a".toList, "id: 1".toList, "data: x".toList, "event: b".toList,
            "id:".toList]) ∧
    (∃ events,
      readEvents (decoderOf ["event: a".toList, "id: 1".toList, "event: b".toList, [],
          "data: x".toList, []]) = some (events, some GoError.EOF) ∧
      List.Forall₂
        (fun frame event =>
          event.Event = lastValue ['e', 'v', 'e', 'n', 't'] frame ∧
            event.ID = lastValue ['i', 'd'] frame)
        ((frames ["event: a".toList, "id: 1".toList, "event: b".toList, [],
          "data: x".toList, []]).filter (fun frame => hasContent (frameEvent frame))) events) :=
  ⟨C17_last_write_wins.1 none none
      ["event: a".toList, "id: 1".toList, "data: x".toList, "event: b".toList, "id:".toList]
      [] ["id: 9".toList] { ID := [], Event := "b".toList, Data := "x".toList, Retry := 0 }
      (by decide) (by decide) (by decide),
    C17_last_write_wins.2 ["event: a".toList, "id: 1".toList, "event: b".toList, [],
      "data: x".toList, []] (by decide)⟩

/-- C18, as stated, fails when the added white space makes a line too long for the
scanner's buffer: the input `data: a` followed by an empty line decodes to one
event and `io.EOF`; with the empty line replaced by `longBlank` (65536 spaces),
which differs from it only in white space, it decodes to no event and
`bufio.ErrTooLong`. -/
theorem C18_counterexample :
    List.Forall₂ sameUpToSpace ["data: a".toList, "".toList] ["data: a".toList, longBlank] ∧
    readEvents (decoderOf ["data: a".toList, "".toList]) =
      some ([{ ID := [], Event := [], Data := "a".toList, Retry := 0 }], some GoError.EOF) ∧
    readEvents (decoderOf ["data: a".toList, longBlank]) = some ([], some ErrTooLong) := by
  refine ⟨?_, by decide, ?_⟩
  · refine List.Forall₂.cons ?_ (List.Forall₂.cons ?_ List.Forall₂.nil)
    · exact ⟨"data: a".toList, [], [], [], [], by decide, by decide, by decide, by decide,
        by decide, by decide⟩
    · exact ⟨[], [], [], longBlank, [], by decide, by decide, isSpace_of_mem_longBlank,
        by decide, rfl, by simp⟩
  · have h := readEvents_tokens none ["data: a".toList, longBlank] none
    rw [tokens_cons_fit _ (show fits "data: a".toList = true from by decide),
      tokens_cons_long _ fits_longBlank,
      scanError_cons_fit _ _ (show fits "data: a".toList = true from by decide),
      scanError_cons_long _ _ fits_longBlank] at h
    exact h

/-- C18, amended: adding or removing leading and trailing white space on any lines
of an input, such that each line is shorter than `MaxScanTokenSize` (65536) bytes
after the change exactly when it was before, changes neither the events returned
by repeated `readEvent` nor the error that ends the decoding; in particular a line
of white space only, shorter than 65536 bytes, acts in the loop exactly as an empty
line does, and a line shorter than 65536 bytes whose first non-white-space
character is a colon is skipped as a comment. -/
theorem C18_surrounding_space_ignored :
    (∀ (r : Option Response) (err : Option GoError) (lines lines' : List GoString),
      List.Forall₂
        (fun a b => sameUpToSpace a b ∧
          (byteLen a < MaxScanTokenSize ↔ byteLen b < MaxScanTokenSize)) lines lines' →
      ∃ events e,
        readEvents { response := r, scanner := some { lines := lines, err := err } } =
          some (events, some e) ∧
        readEvents { response := r, scanner := some { lines := lines', err := err } } =
          some (events, some e)) ∧
    (∀ (event : Event) (err : Option GoError) (ws : GoString) (rest : List GoString),
      (∀ c ∈ ws, isSpace c = true) → byteLen ws < MaxScanTokenSize →
      scanLoop event err (ws :: rest) = scanLoop event err ([] :: rest)) ∧
    (∀ (event : Event) (err : Option GoError) (text : GoString) (rest : List GoString),
      isComment text = true → byteLen text < MaxScanTokenSize →
      scanLoop event err (text :: rest) = scanLoop event err rest) := by
  refine ⟨?_, ?_, ?_⟩
  · intro r err lines lines' h
    have h' : List.Forall₂ (fun a b => TrimSpace a = TrimSpace b ∧ fits a = fits b)
        lines lines' := by
      refine h.imp (fun a b hab => ⟨TrimSpace_eq_of_sameUpToSpace hab.1, ?_⟩)
      cases hb : fits b with
      | true => exact (fits_iff a).2 (hab.2.2 ((fits_iff b).1 hb))
      | false =>
        cases ha : fits a with
        | true => rw [(fits_iff b).2 (hab.2.1 ((fits_iff a).1 ha))] at hb; exact hb
        | false => rfl
    obtain ⟨hev, hall⟩ := eventsFrom_tokens_congr h'
    refine ⟨_, _, readEvents_tokens r lines err, ?_⟩
    rw [readEvents_tokens, hev {}]
    unfold scanError
    rw [hall]
  · intro event err ws rest hws hlen
    refine scanLoop_congr_head ?_ ?_ event err rest
    · have h1 := isBlank_of_all_space hws
      unfold isBlank at h1
      rw [decide_eq_true_eq] at h1
      rw [h1]
      rfl
    · rw [(fits_iff ws).2 hlen]
      rfl
  · intro event err text rest h hlen
    rw [scanLoop_cons event err rest ((fits_iff text).2 hlen), isBlank_of_isComment h,
      if_neg (by simp), accumulate_of_isComment h]

/-- C18, at a concrete input: the frame `data: a` with its blank line, and the same
lines with white space added on both sides. -/
theorem C18_surrounding_space_ignored_witness :
    (∃ events e,
      readEvents { response := none,
                   scanner := some { lines := ["data: a".toList, "".toList], err := none } } =
        some (events, some e) ∧
      readEvents { response := none,
                   scanner := some { lines := ["  data: a\t".toList, " \r".toList],
                                     err := none } } =
        some (events, some e)) ∧
    scanLoop { ID := [], Event := [], Data := ['a'], Retry := 0 } none (" \t ".toList :: []) =
      scanLoop { ID := [], Event := [], Data := ['a'], Retry := 0 } none ([] :: []) ∧
    scanLoop {} none ("  : note".toList :: ["id: 1".toList, []]) =
      scanLoop {} none ["id: 1".toList, []] :=
  ⟨C18_surrounding_space_ignored.1 none none ["data: a".toList, "".toList]
      ["  data: a\t".toList, " \r".toList]
      (List.Forall₂.cons
        ⟨⟨"data: a".toList, [], [], "  ".toList, "\t".toList, by decide, by decide, by decide,
          by decide, by decide, by decide⟩, by decide⟩
        (List.Forall₂.cons
          ⟨⟨[], [], [], " \r".toList, [], by decide, by decide, by decide, by decide,
            by decide, by decide⟩, by decide⟩
          List.Forall₂.nil)),
    C18_surrounding_space_ignored.2.1 { ID := [], Event := [], Data := ['a'], Retry := 0 }
      none " \t ".toList [] (by decide) (by decide),
    C18_surrounding_space_ignored.2.2 {} none "  : note".toList ["id: 1".toList, []]
      (by decide) (by decide)⟩

/-- C19, as stated, fails when `L1` holds a line that does not fit the scanner's
buffer: with `L1` the line `longLine` (65536 bytes) and an empty line, and `L2` the
frame `data: a` with its empty line, `L1` decodes to no event, `L2` to one event,
and `L1 ++ L2` to no event. -/
theorem C19_counterexample :
    isBlank "".toList = true ∧
    readEvents (decoderOf ([longLine] ++ ["".toList])) = some ([], some ErrTooLong) ∧
    readEvents (decoderOf ["data: a".toList, "".toList]) =
      some ([{ ID := [], Event := [], Data := "a".toList, Retry := 0 }], some GoError.EOF) ∧
    readEvents (decoderOf (([longLine] ++ ["".toList]) ++ ["data: a".toList, "".toList])) =
      some ([], some ErrTooLong) :=
  ⟨by decide, readEvents_long_head none none fits_longLine _, by decide,
    readEvents_long_head none none fits_longLine _⟩

/-- C19, amended: decoding is compositional at frame boundaries behind lines that
fit the scanner's buffer: when `L1` is empty or ends with a blank line and every
line of `L1` is shorter than `MaxScanTokenSize` (65536) bytes, `L1` decodes to its
events and `io.EOF`, and the events of `L1 ++ L2` are the events of `L1` followed by
the events of `L2`, with the error that ends the decoding of `L2`. And a call of
`readEvent` that returns an event has consumed the lines up to and including a
blank line, changes nothing of the decoder but the lines left, and returns the
event a new decoder returns on the consumed lines alone. -/
theorem C19_compositional_at_frame_boundaries :
    (∀ L1 L2 : List GoString,
      (L1 = [] ∨ ∃ init b, L1 = init ++ [b] ∧ isBlank b = true) →
      (∀ t ∈ L1, byteLen t < MaxScanTokenSize) →
      ∃ events1 events2 e,
        readEvents (decoderOf L1) = some (events1, some GoError.EOF) ∧
        readEvents (decoderOf L2) = some (events2, some e) ∧
        readEvents (decoderOf (L1 ++ L2)) = some (events1 ++ events2, some e)) ∧
    (∀ (d d' : Decoder) (event : Event) (e : Option GoError),
      d.readEvent = ((some event, e), d') →
      ∃ sc consumed b rest,
        d.scanner = some sc ∧ isBlank b = true ∧ sc.lines = consumed ++ b :: rest ∧
        e = none ∧
        d' = { response := d.response, scanner := some { lines := rest, err := sc.err } } ∧
        Decoder.readEvent (decoderOf (consumed ++ [b])) =
          ((some event, none), decoderOf [])) := by
  refine ⟨?_, ?_⟩
  · intro L1 L2 h hfit
    have hall := all_fit_of_bound hfit
    refine ⟨eventsFrom {} L1, eventsFrom {} (tokens L2), scanError L2 none,
      readEvents_decoderOf L1 hall, readEvents_tokens none L2 none, ?_⟩
    have h3 := readEvents_tokens none (L1 ++ L2) none
    rw [tokens_append_of_all_fit hall, scanError_append_of_all_fit hall] at h3
    rw [show decoderOf (L1 ++ L2) =
      { response := none, scanner := some { lines := L1 ++ L2, err := none } } from rfl, h3]
    rcases h with rfl | ⟨init, b, rfl, hb⟩
    · rfl
    · rw [List.append_assoc, List.singleton_append,
        eventsFrom_append_at_blank hb init (tokens L2) {} rfl]
  · intro d d' event e h
    cases d with
    | mk r scanner =>
      cases scanner with
      | none => simp [Decoder.readEvent] at h
      | some sc =>
        cases hs : scanLoop {} sc.err sc.lines with
        | mk o sc' =>
          cases o with
          | none => rw [readEvent_of_none hs] at h; simp at h
          | some ev =>
            rw [readEvent_of_some hs] at h
            simp only [Prod.mk.injEq, Option.some.injEq] at h
            obtain ⟨⟨rfl, rfl⟩, rfl⟩ := h
            obtain ⟨consumed, b, h1, h2, -, -, h3⟩ := scanLoop_some_split sc.err hs
            have herr := (scanLoop_some sc.err hs).2.2.2.2.1
            refine ⟨sc, consumed, b, sc'.lines, rfl, h1, h2, rfl, ?_, ?_⟩
            · cases sc' with
              | mk l e' =>
                simp only at herr
                rw [herr]
            · have h4 : scanLoop {} (Scanner.mk (consumed ++ [b]) none).err
                  (Scanner.mk (consumed ++ [b]) none).lines =
                    (some ev, { lines := [], err := none }) := h3 none []
              exact readEvent_of_some h4

/-- C19, at a concrete input: two frames, cut behind the blank line of the first;
and the first call of `readEvent` on them. -/
theorem C19_compositional_at_frame_boundaries_witness :
    (∃ events1 events2 e,
      readEvents (decoderOf ["id: 1".toList, "data: a".toList, " ".toList]) =
        some (events1, some GoError.EOF) ∧
      readEvents (decoderOf ["data: b".toList, "".toList, "data: c".toList]) =
        some (events2, some e) ∧
      readEvents (decoderOf (["id: 1".toList, "data: a".toList, " ".toList] ++
          ["data: b".toList, "".toList, "data: c".toList])) =
        some (events1 ++ events2, some e)) ∧
    (∃ sc consumed b rest,
      (decoderOf ["id: 1".toList, "data: a".toList, " ".toList, "data: b".toList]).scanner =
        some sc ∧
      isBlank b = true ∧ sc.lines = consumed ++ b :: rest ∧ (none : Option GoError) = none ∧
      ({ response := none, scanner := some { lines := ["data: b".toList], err := none } } :
          Decoder) =
        { response := (decoderOf ["id: 1".toList, "data: a".toList, " ".toList,
            "data: b".toList]).response,
          scanner := some { lines := rest, err := sc.err } } ∧
      Decoder.readEvent (decoderOf (consumed ++ [b])) =
        ((some { ID := "1".toList, Event := [], Data := "a".toList, Retry := 0 }, none),
          decoderOf [])) :=
  ⟨C19_compositional_at_frame_boundaries.1 ["id: 1".toList, "data: a".toList, " ".toList]
      ["data: b".toList, "".toList, "data: c".toList]
      (Or.inr ⟨["id: 1".toList, "data: a".toList], " ".toList, by decide, by decide⟩)
      (by decide),
    C19_compositional_at_frame_boundaries.2
      (decoderOf ["id: 1".toList, "data: a".toList, " ".toList, "data: b".toList])
      { response := none, scanner := some { lines := ["data: b".toList], err := none } }
      { ID := "1".toList, Event := [], Data := "a".toList, Retry := 0 } none (by decide)⟩

/-- C20: on a stream built by `NewStream(decoder, e)` with `e` non-nil, for every
decoder, nil or not, and any number of earlier calls: the stream is still as it
was built, so nothing was read from the decoder; `Next` returns false and leaves
it so; `Err` returns exactly `e`; and `Current` returns the zero value of `T`. -/
theorem C20_initial_error_kept {T : Type} (unmarshal : GoString → Except GoError T)
    (zero : T) (d : Option Decoder) (e : GoError) (n : Nat) :
    Stream.afterCalls unmarshal n (NewStream d (some e)) = NewStream d (some e) ∧
    (Stream.afterCalls unmarshal n (NewStream d (some e))).Next unmarshal =
      (false, NewStream d (some e)) ∧
    (Stream.afterCalls unmarshal n (NewStream d (some e))).decoder = d ∧
    (Stream.afterCalls unmarshal n (NewStream d (some e))).Err = some e ∧
    (Stream.afterCalls unmarshal n (NewStream d (some e))).Current zero = zero := by
  have herr : (NewStream d (some e) : Stream T).err ≠ none := by simp [NewStream]
  have h := afterCalls_of_err unmarshal n (NewStream d (some e)) herr
  rw [h]
  exact ⟨rfl, Next_of_err unmarshal herr, rfl, rfl, rfl⟩

end ssestream
